import Mathlib

/-!
Shallow embedding of the hid-device-report Rust crate (HID report descriptor
builder and bit-level report packer), together with proofs about the claims
of its specification.

Conventions of the embedding:
* Rust u8/u16/u32 values are Nat, reduced with explicit Nat mod 2^8 / 2^16 /
  2^32 where the machine arithmetic can wrap; i8/i32 values are Int.
* Shift and arithmetic overflow is modelled with release-mode (two's
  complement wrapping, shift amount masked by the bit width) semantics.
* A Rust function that can panic is modelled as returning an Option, with
  none on the panicking path.
* Vec / boxed slices are Lean Lists.
-/

/-! ## field_types.rs -/

/-- CollectionType from field_types.rs (closed enum of collection kinds). -/
inductive CollectionType where
  | Physical
  | Application
  | Logical
  | Report
  | NamedArray
  | UsageSwitch
  | UsageModifier
deriving DecidableEq, Repr

/-- CollectionType::code from field_types.rs. -/
def CollectionType.code : CollectionType → Nat
  | .Physical => 0x00
  | .Application => 0x01
  | .Logical => 0x02
  | .Report => 0x03
  | .NamedArray => 0x04
  | .UsageSwitch => 0x05
  | .UsageModifier => 0x06

/-! ## usage.rs -/

/-- Usage from usage.rs: a Standard page/id pair or an opaque Extended u32.
Standard carries a u16 page and u16 id; Extended carries a u32. -/
inductive Usage where
  | Standard (page id : Nat)
  | Extended (value : Nat)
deriving DecidableEq, Repr

/-- Usage::as_u32 from usage.rs: page in the high 16 bits, id in the low. -/
def Usage.as_u32 : Usage → Nat
  | .Standard page id => (page <<< 0x10) ||| id
  | .Extended value => value

/-- Well-formedness of the machine-integer fields of a Usage (u16 page and
id for Standard, u32 value for Extended); implicit in the Rust types. -/
def Usage.wf : Usage → Prop
  | .Standard page id => page < 2 ^ 16 ∧ id < 2 ^ 16
  | .Extended value => value < 2 ^ 32

instance : DecidablePred Usage.wf := by
  intro u; cases u <;> simp [Usage.wf] <;> infer_instance

/-- UsageRange from usage.rs. -/
structure UsageRange where
  min : Usage
  max : Usage
deriving DecidableEq, Repr

/-- UsageRange::len from usage.rs: computes max.as_u32() + 1 - min.as_u32()
in u32 arithmetic; modelled with release-mode wrapping for both the
increment and the subtraction. -/
def UsageRange.len (r : UsageRange) : Nat :=
  ((r.max.as_u32 + 1) % 2 ^ 32 + 2 ^ 32 - r.min.as_u32 % 2 ^ 32) % 2 ^ 32

/-! ## tag/tag.rs : the Tag union -/

/-- Tag from tag/tag.rs: one statement of a HID report descriptor.
Payload types follow field_types.rs: ReportFlags and Unit are u32 (Nat),
LogicalValue and PhysicalValue are i32 (Int), UnitExponent is an i8 (Int),
ReportId is u8, ReportSize and ReportCount are u32, usage pages and ids are
u16, ExtendedUsage is u32, DesignatorIndex and StringIndex are u32, and a
Delimiter is a Bool (open/close). -/
inductive Tag where
  | Input (flags : Nat)
  | Output (flags : Nat)
  | Feature (flags : Nat)
  | Collection (ct : CollectionType)
  | EndCollection
  | UsagePage (page : Nat)
  | LogicalMinimum (v : Int)
  | LogicalMaximum (v : Int)
  | PhysicalMinimum (v : Int)
  | PhysicalMaximum (v : Int)
  | UnitExponent (e : Int)
  | Unit (code : Nat)
  | ReportSize (s : Nat)
  | ReportId (i : Nat)
  | ReportCount (c : Nat)
  | Push
  | Pop
  | ExtendedUsage (u : Nat)
  | UsageId (u : Nat)
  | ExtendedUsageMinimum (u : Nat)
  | UsageMinimumId (u : Nat)
  | ExtendedUsageMaximum (u : Nat)
  | UsageMaximumId (u : Nat)
  | DesignatorIndex (d : Nat)
  | DesignatorMinimum (d : Nat)
  | DesignatorMaximum (d : Nat)
  | StringIndex (s : Nat)
  | StringMinimum (s : Nat)
  | StringMaximum (s : Nat)
  | Delimiter (open_ : Bool)
deriving DecidableEq, Repr

/-- TagType from tag/tag.rs. -/
inductive TagType where
  | Main
  | Global
  | Local
deriving DecidableEq, Repr

/-- Tag::tag_type from tag/tag.rs. -/
def Tag.tag_type : Tag → TagType
  | .Input _ => .Main
  | .Output _ => .Main
  | .Feature _ => .Main
  | .Collection _ => .Main
  | .EndCollection => .Main
  | .UsagePage _ => .Global
  | .LogicalMinimum _ => .Global
  | .LogicalMaximum _ => .Global
  | .PhysicalMinimum _ => .Global
  | .PhysicalMaximum _ => .Global
  | .UnitExponent _ => .Global
  | .Unit _ => .Global
  | .ReportSize _ => .Global
  | .ReportId _ => .Global
  | .ReportCount _ => .Global
  | .Push => .Global
  | .Pop => .Global
  | .ExtendedUsage _ => .Local
  | .UsageId _ => .Local
  | .ExtendedUsageMinimum _ => .Local
  | .UsageMinimumId _ => .Local
  | .ExtendedUsageMaximum _ => .Local
  | .UsageMaximumId _ => .Local
  | .DesignatorIndex _ => .Local
  | .DesignatorMinimum _ => .Local
  | .DesignatorMaximum _ => .Local
  | .StringIndex _ => .Local
  | .StringMinimum _ => .Local
  | .StringMaximum _ => .Local
  | .Delimiter _ => .Local

/-! ## optimizer.rs : Stage C (redundant-global elimination) -/

/-- replace_option_bool from optimizer.rs: store the value and report
whether it differed from (or was absent in) the previous contents. -/
def replace_option_bool [DecidableEq α] (opt : Option α) (value : α) :
    Option α × Bool :=
  let item_is_new :=
    match opt with
    | some t => decide (t ≠ value)
    | none => true
  (some value, item_is_new)

/-- GlobalTable from optimizer.rs: one optional slot per Global tag kind. -/
structure GlobalTable where
  usage_page : Option Nat := none
  logical_minimum : Option Int := none
  logical_maximum : Option Int := none
  physical_minimum : Option Int := none
  physical_maximum : Option Int := none
  unit_exponent : Option Int := none
  unit : Option Nat := none
  report_size : Option Nat := none
  report_id : Option Nat := none
  report_count : Option Nat := none
deriving DecidableEq, Repr

/-- GlobalTable::new from optimizer.rs. -/
def GlobalTable.new : GlobalTable := {}

/-- GlobalTable::set_tag from optimizer.rs. Returns the updated table and
whether the tag changed it; the catch-all arm panics in Rust ("Unrecognized
tag"), modelled as none. -/
def GlobalTable.set_tag (gt : GlobalTable) : Tag → Option (GlobalTable × Bool)
  | .UsagePage v =>
    let r := replace_option_bool gt.usage_page v
    some ({ gt with usage_page := r.1 }, r.2)
  | .LogicalMinimum v =>
    let r := replace_option_bool gt.logical_minimum v
    some ({ gt with logical_minimum := r.1 }, r.2)
  | .LogicalMaximum v =>
    let r := replace_option_bool gt.logical_maximum v
    some ({ gt with logical_maximum := r.1 }, r.2)
  | .PhysicalMinimum v =>
    let r := replace_option_bool gt.physical_minimum v
    some ({ gt with physical_minimum := r.1 }, r.2)
  | .PhysicalMaximum v =>
    let r := replace_option_bool gt.physical_maximum v
    some ({ gt with physical_maximum := r.1 }, r.2)
  | .UnitExponent v =>
    let r := replace_option_bool gt.unit_exponent v
    some ({ gt with unit_exponent := r.1 }, r.2)
  | .Unit v =>
    let r := replace_option_bool gt.unit v
    some ({ gt with unit := r.1 }, r.2)
  | .ReportSize v =>
    let r := replace_option_bool gt.report_size v
    some ({ gt with report_size := r.1 }, r.2)
  | .ReportId v =>
    let r := replace_option_bool gt.report_id v
    some ({ gt with report_id := r.1 }, r.2)
  | .ReportCount v =>
    let r := replace_option_bool gt.report_count v
    some ({ gt with report_count := r.1 }, r.2)
  | _ => none

/-- First loop of TagOptimizer::remove_duplicates from optimizer.rs: walk
the tag list threading the global table and produce the is_duplicate flag
for each position (false for every non-Global tag). -/
def TagOptimizer.mark_duplicates (gt : GlobalTable) :
    List Tag → Option (List Bool)
  | [] => some []
  | t :: ts =>
    match Tag.tag_type t with
    | TagType.Global =>
      match GlobalTable.set_tag gt t with
      | none => none
      | some (gt2, is_new) =>
        (TagOptimizer.mark_duplicates gt2 ts).map fun rest => (!is_new) :: rest
    | _ =>
      (TagOptimizer.mark_duplicates gt ts).map fun rest => false :: rest

/-- Second loop of TagOptimizer::remove_duplicates from optimizer.rs:
delete all tags marked as duplicate. -/
def TagOptimizer.delete_marked (tags : List Tag) (flags : List Bool) :
    List Tag :=
  (((tags.zip flags).filter fun p => !p.2).map Prod.fst)

/-- TagOptimizer::remove_duplicates from optimizer.rs. The whole pass is
none exactly when the Rust code would panic (a Push or Pop tag reaches
GlobalTable::set_tag). -/
def TagOptimizer.remove_duplicates (tags : List Tag) : Option (List Tag) :=
  (TagOptimizer.mark_duplicates GlobalTable.new tags).map
    (TagOptimizer.delete_marked tags)

/-- Fused mark-and-delete scan equivalent to remove_duplicates; used only
to reason about it. -/
def TagOptimizer.scan_dedup (gt : GlobalTable) :
    List Tag → Option (List Tag)
  | [] => some []
  | t :: ts =>
    match Tag.tag_type t with
    | TagType.Global =>
      match GlobalTable.set_tag gt t with
      | none => none
      | some (gt2, is_new) =>
        (TagOptimizer.scan_dedup gt2 ts).map fun rest =>
          if is_new then t :: rest else rest
    | _ =>
      (TagOptimizer.scan_dedup gt ts).map fun rest => t :: rest

/-- Modelled from the spec wording of Stage C (for the refinement claim):
the table slot currently stored for the kind of the given tag, as a Tag. -/
def GlobalTable.slot_tag (gt : GlobalTable) : Tag → Option Tag
  | .UsagePage _ => gt.usage_page.map Tag.UsagePage
  | .LogicalMinimum _ => gt.logical_minimum.map Tag.LogicalMinimum
  | .LogicalMaximum _ => gt.logical_maximum.map Tag.LogicalMaximum
  | .PhysicalMinimum _ => gt.physical_minimum.map Tag.PhysicalMinimum
  | .PhysicalMaximum _ => gt.physical_maximum.map Tag.PhysicalMaximum
  | .UnitExponent _ => gt.unit_exponent.map Tag.UnitExponent
  | .Unit _ => gt.unit.map Tag.Unit
  | .ReportSize _ => gt.report_size.map Tag.ReportSize
  | .ReportId _ => gt.report_id.map Tag.ReportId
  | .ReportCount _ => gt.report_count.map Tag.ReportCount
  | _ => none

/-- Modelled from the spec wording of Stage C (for the refinement claim):
update the table slot for the kind of the given tag to the tag's value. -/
def GlobalTable.store_tag (gt : GlobalTable) : Tag → GlobalTable
  | .UsagePage v => { gt with usage_page := some v }
  | .LogicalMinimum v => { gt with logical_minimum := some v }
  | .LogicalMaximum v => { gt with logical_maximum := some v }
  | .PhysicalMinimum v => { gt with physical_minimum := some v }
  | .PhysicalMaximum v => { gt with physical_maximum := some v }
  | .UnitExponent v => { gt with unit_exponent := some v }
  | .Unit v => { gt with unit := some v }
  | .ReportSize v => { gt with report_size := some v }
  | .ReportId v => { gt with report_id := some v }
  | .ReportCount v => { gt with report_count := some v }
  | _ => gt

/-- Stage C as the specification words it: scan in order; keep every Main
and Local tag; drop a Global tag exactly when its value equals the table's
current slot for its kind, updating the slot otherwise. -/
def stageC_spec (gt : GlobalTable) : List Tag → List Tag
  | [] => []
  | t :: ts =>
    match Tag.tag_type t with
    | TagType.Global =>
      if GlobalTable.slot_tag gt t = some t then
        stageC_spec gt ts
      else
        t :: stageC_spec (GlobalTable.store_tag gt t) ts
    | _ => t :: stageC_spec gt ts

/-! ## item.rs : Stage D (short-item binary encoding) -/

/-- BSize from item.rs: the two-bit size code of a short item. -/
inductive BSize where
  | B0
  | B1
  | B2
  | B4
deriving DecidableEq, Repr

/-- BSize::code from item.rs. -/
def BSize.code : BSize → Nat
  | .B0 => 0
  | .B1 => 1
  | .B2 => 2
  | .B4 => 3

/-- BSize::size from item.rs (size in bytes). -/
def BSize.size : BSize → Nat
  | .B0 => 0
  | .B1 => 1
  | .B2 => 2
  | .B4 => 4

/-- BSize::try_from_code from item.rs. -/
def BSize.try_from_code : Nat → Option BSize
  | 0 => some .B0
  | 1 => some .B1
  | 2 => some .B2
  | 3 => some .B4
  | _ => none

/-- ShortItemData from item.rs. U% payloads are Nat in the u8/u16/u32
range, I% payloads are Int in the i8/i16/i32 range. -/
inductive ShortItemData where
  | Empty
  | U8 (v : Nat)
  | I8 (v : Int)
  | U16 (v : Nat)
  | I16 (v : Int)
  | U32 (v : Nat)
  | I32 (v : Int)
deriving DecidableEq, Repr

/-- ShortItemData::size from item.rs. -/
def ShortItemData.size : ShortItemData → BSize
  | .Empty => .B0
  | .U8 _ => .B1
  | .I8 _ => .B1
  | .U16 _ => .B2
  | .I16 _ => .B2
  | .U32 _ => .B4
  | .I32 _ => .B4

/-- ShortItemData::as_u32 from item.rs. A signed payload is cast with Rust
as-conversion semantics (two's complement, sign extension to 32 bits),
modelled as the nonnegative representative of v mod 2^32. -/
def ShortItemData.as_u32 : ShortItemData → Nat
  | .Empty => 0
  | .U8 v => v
  | .I8 v => (v % 2 ^ 32).toNat
  | .U16 v => v
  | .I16 v => (v % 2 ^ 32).toNat
  | .U32 v => v
  | .I32 v => (v % 2 ^ 32).toNat

/-- ShortItemData::make_shrunk_unsigned from item.rs: u8::try_from
succeeds exactly on values below 256, u16::try_from below 65536. -/
def ShortItemData.make_shrunk_unsigned (value : Nat) : ShortItemData :=
  if value < 256 then .U8 value
  else if value < 65536 then .U16 value
  else .U32 value

/-- ShortItemData::make_shrunk_signed from item.rs: i8::try_from succeeds
exactly on [-128, 127], i16::try_from on [-32768, 32767]. -/
def ShortItemData.make_shrunk_signed (value : Int) : ShortItemData :=
  if -128 ≤ value ∧ value ≤ 127 then .I8 value
  else if -32768 ≤ value ∧ value ≤ 32767 then .I16 value
  else .I32 value

/-- ShortItemData::shrink from item.rs. -/
def ShortItemData.shrink : ShortItemData → ShortItemData
  | .Empty => .Empty
  | .U8 v => ShortItemData.make_shrunk_unsigned v
  | .U16 v => ShortItemData.make_shrunk_unsigned v
  | .U32 v => ShortItemData.make_shrunk_unsigned v
  | .I8 v => ShortItemData.make_shrunk_signed v
  | .I16 v => ShortItemData.make_shrunk_signed v
  | .I32 v => ShortItemData.make_shrunk_signed v

/-- The four little-endian bytes of a u32 (u32::to_le_bytes). -/
def leBytes4 (d : Nat) : List Nat :=
  [d % 256, d / 2 ^ 8 % 256, d / 2 ^ 16 % 256, d / 2 ^ 24 % 256]

/-- ItemPrefix::from_u8 from item.rs (the low two bits are masked off).
The ItemPrefix newtype over u8 is modelled as a plain Nat. -/
def ItemPrefixByte.from_u8 (value : Nat) : Nat := value &&& 0xfc

/-- ItemPrefix::with_size from item.rs: combine the prefix byte with a
size code, giving the SizeTypeTag byte (also modelled as a Nat). -/
def ItemPrefixByte.with_size (p : Nat) (size : BSize) : Nat :=
  p ||| size.code

/-- SizeTypeTag::size from item.rs; the unwrap of try_from_code is
modelled as the Option itself (it never fails since the code is two
bits). -/
def SizeTypeTag.size (stt : Nat) : Option BSize :=
  BSize.try_from_code (stt &&& 0x03)

/-- ShortItem from item.rs: a SizeTypeTag byte plus the u32 data. -/
structure ShortItem where
  size_type_tag : Nat
  data : Nat
deriving DecidableEq, Repr

/-- ShortItem::into_bytes from item.rs: the tag byte followed by the
little-endian data bytes, truncated to the declared size. -/
def ShortItem.into_bytes (it : ShortItem) : Option (List Nat) :=
  (SizeTypeTag.size it.size_type_tag).map fun sz =>
    it.size_type_tag :: (leBytes4 it.data).take sz.size

/-- ItemPrefix::with_data from item.rs. -/
def ItemPrefixByte.with_data (p : Nat) (d : ShortItemData) : ShortItem :=
  ShortItem.mk (ItemPrefixByte.with_size p d.size) d.as_u32

/-- ItemPrefix::without_data from item.rs. -/
def ItemPrefixByte.without_data (p : Nat) : ShortItem :=
  ItemPrefixByte.with_data p .Empty

/-- ItemPrefix::with_u8 from item.rs. -/
def ItemPrefixByte.with_u8 (p : Nat) (d : Nat) : ShortItem :=
  ItemPrefixByte.with_data p (.U8 d)

/-- ItemPrefix::with_u16 from item.rs. -/
def ItemPrefixByte.with_u16 (p : Nat) (d : Nat) : ShortItem :=
  ItemPrefixByte.with_data p (.U16 d)

/-- ItemPrefix::with_u32 from item.rs. -/
def ItemPrefixByte.with_u32 (p : Nat) (d : Nat) : ShortItem :=
  ItemPrefixByte.with_data p (.U32 d)

/-- ItemPrefix::with_shrunk_u32 from item.rs. -/
def ItemPrefixByte.with_shrunk_u32 (p : Nat) (d : Nat) : ShortItem :=
  ItemPrefixByte.with_data p (ShortItemData.shrink (.U32 d))

/-- ItemPrefix::with_shrunk_i32 from item.rs. -/
def ItemPrefixByte.with_shrunk_i32 (p : Nat) (d : Int) : ShortItem :=
  ItemPrefixByte.with_data p (ShortItemData.shrink (.I32 d))

/-- Main item prefixes from item.rs (6.2.2.4 of the USB HID spec). -/
def main_item.INPUT : Nat := ItemPrefixByte.from_u8 0x80

def main_item.OUTPUT : Nat := ItemPrefixByte.from_u8 0x90

def main_item.FEATURE : Nat := ItemPrefixByte.from_u8 0xB0

def main_item.COLLECTION : Nat := ItemPrefixByte.from_u8 0xA0

def main_item.END_COLLECTION : Nat := ItemPrefixByte.from_u8 0xC0

/-- Global item prefixes from item.rs (6.2.2.7 of the USB HID spec). -/
def global_item.USAGE_PAGE : Nat := ItemPrefixByte.from_u8 0x04

def global_item.LOGICAL_MINIMUM : Nat := ItemPrefixByte.from_u8 0x14

def global_item.LOGICAL_MAXIMUM : Nat := ItemPrefixByte.from_u8 0x24

def global_item.PHYSICAL_MINIMUM : Nat := ItemPrefixByte.from_u8 0x34

def global_item.PHYSICAL_MAXIMUM : Nat := ItemPrefixByte.from_u8 0x44

def global_item.UNIT_EXPONENT : Nat := ItemPrefixByte.from_u8 0x54

def global_item.UNIT : Nat := ItemPrefixByte.from_u8 0x64

def global_item.REPORT_SIZE : Nat := ItemPrefixByte.from_u8 0x74

def global_item.REPORT_ID : Nat := ItemPrefixByte.from_u8 0x84

def global_item.REPORT_COUNT : Nat := ItemPrefixByte.from_u8 0x94

def global_item.PUSH : Nat := ItemPrefixByte.from_u8 0xA4

def global_item.POP : Nat := ItemPrefixByte.from_u8 0xB4

/-- Local item prefixes from item.rs (6.2.2.8 of the USB HID spec). -/
def local_item.USAGE : Nat := ItemPrefixByte.from_u8 0x08

def local_item.USAGE_MINIMUM : Nat := ItemPrefixByte.from_u8 0x18

def local_item.USAGE_MAXIMUM : Nat := ItemPrefixByte.from_u8 0x28

def local_item.DESIGNATOR_INDEX : Nat := ItemPrefixByte.from_u8 0x38

def local_item.DESIGNATOR_MINIMUM : Nat := ItemPrefixByte.from_u8 0x48

def local_item.DESIGNATOR_MAXIMUM : Nat := ItemPrefixByte.from_u8 0x58

def local_item.STRING_INDEX : Nat := ItemPrefixByte.from_u8 0x78

def local_item.STRING_MINIMUM : Nat := ItemPrefixByte.from_u8 0x88

def local_item.STRING_MAXIMUM : Nat := ItemPrefixByte.from_u8 0x98

def local_item.DELIMITER : Nat := ItemPrefixByte.from_u8 0xA8

/-- UnitExponent::as_nibble from field_types.rs: the i8 exponent masked to
its low 4 bits (for an i8 value e, e band 0xF equals e mod 16). -/
def UnitExponent.as_nibble (e : Int) : Nat := (e % 16).toNat

/-- The From Tag for ShortItem conversion from item.rs (Stage D). -/
def ShortItem.from_tag : Tag → ShortItem
  | .Input flags => ItemPrefixByte.with_shrunk_u32 main_item.INPUT flags
  | .Output flags => ItemPrefixByte.with_shrunk_u32 main_item.OUTPUT flags
  | .Feature flags => ItemPrefixByte.with_shrunk_u32 main_item.FEATURE flags
  | .Collection ct => ItemPrefixByte.with_u8 main_item.COLLECTION ct.code
  | .EndCollection => ItemPrefixByte.without_data main_item.END_COLLECTION
  | .UsagePage page => ItemPrefixByte.with_shrunk_u32 global_item.USAGE_PAGE page
  | .LogicalMinimum v => ItemPrefixByte.with_shrunk_i32 global_item.LOGICAL_MINIMUM v
  | .LogicalMaximum v => ItemPrefixByte.with_shrunk_i32 global_item.LOGICAL_MAXIMUM v
  | .PhysicalMinimum v => ItemPrefixByte.with_shrunk_i32 global_item.PHYSICAL_MINIMUM v
  | .PhysicalMaximum v => ItemPrefixByte.with_shrunk_i32 global_item.PHYSICAL_MAXIMUM v
  | .UnitExponent e => ItemPrefixByte.with_u8 global_item.UNIT_EXPONENT (UnitExponent.as_nibble e)
  | .Unit code => ItemPrefixByte.with_shrunk_u32 global_item.UNIT code
  | .ReportSize s => ItemPrefixByte.with_shrunk_u32 global_item.REPORT_SIZE s
  | .ReportId i => ItemPrefixByte.with_u8 global_item.REPORT_ID i
  | .ReportCount c => ItemPrefixByte.with_shrunk_u32 global_item.REPORT_COUNT c
  | .Push => ItemPrefixByte.without_data global_item.PUSH
  | .Pop => ItemPrefixByte.without_data global_item.POP
  | .ExtendedUsage u => ItemPrefixByte.with_u32 local_item.USAGE u
  | .UsageId u => ItemPrefixByte.with_shrunk_u32 local_item.USAGE u
  | .ExtendedUsageMinimum u => ItemPrefixByte.with_u32 local_item.USAGE_MINIMUM u
  | .UsageMinimumId u => ItemPrefixByte.with_shrunk_u32 local_item.USAGE_MINIMUM u
  | .ExtendedUsageMaximum u => ItemPrefixByte.with_u32 local_item.USAGE_MAXIMUM u
  | .UsageMaximumId u => ItemPrefixByte.with_shrunk_u32 local_item.USAGE_MAXIMUM u
  | .DesignatorIndex d => ItemPrefixByte.with_shrunk_u32 local_item.DESIGNATOR_INDEX d
  | .DesignatorMinimum d => ItemPrefixByte.with_shrunk_u32 local_item.DESIGNATOR_MINIMUM d
  | .DesignatorMaximum d => ItemPrefixByte.with_shrunk_u32 local_item.DESIGNATOR_MAXIMUM d
  | .StringIndex s => ItemPrefixByte.with_shrunk_u32 local_item.STRING_INDEX s
  | .StringMinimum s => ItemPrefixByte.with_shrunk_u32 local_item.STRING_MINIMUM s
  | .StringMaximum s => ItemPrefixByte.with_shrunk_u32 local_item.STRING_MAXIMUM s
  | .Delimiter d => ItemPrefixByte.with_shrunk_u32 local_item.DELIMITER (if d then 1 else 0)

/-- ShortItems::into_bytes from item.rs: convert each tag to a ShortItem
and concatenate every item's bytes (none if any item panics, which never
happens). -/
def ShortItems.into_bytes (tags : List Tag) : Option (List Nat) :=
  (((tags.map ShortItem.from_tag).mapM ShortItem.into_bytes).map List.flatten)

/-! ## format.rs : the bit-level report format engine -/

/-- DataOutOfBoundsError from format.rs. -/
inductive DataOutOfBoundsError where
  | mk
deriving DecidableEq, Repr

/-- TooLargeError from format.rs. -/
inductive TooLargeError where
  | mk
deriving DecidableEq, Repr

/-- MissingIdError from error.rs. -/
inductive MissingIdError where
  | mk
deriving DecidableEq, Repr

/-- The little-endian value of a byte list (each byte below 256). -/
def natOfBytes : List Nat → Nat
  | [] => 0
  | b :: bs => b + 256 * natOfBytes bs

/-- ReportVariable from format.rs: one field's writable window. -/
structure ReportVariable where
  bit_offset : Nat
  bit_size : Nat
  data : Nat
deriving DecidableEq, Repr

/-- ReportVariable::new from format.rs. -/
def ReportVariable.new (bit_offset bit_size : Nat) :
    Except TooLargeError ReportVariable :=
  let internal_offset := bit_offset % 8
  if bit_size + internal_offset ≤ 32 then
    .ok (ReportVariable.mk bit_offset bit_size 0)
  else
    .error .mk

/-- ReportVariable::clear from format.rs. -/
def ReportVariable.clear (rv : ReportVariable) : ReportVariable :=
  { rv with data := 0 }

/-- ReportVariable::set_unsigned from format.rs. The mutable receiver is
modelled by returning the result together with the post-state. The mask
u32::MAX shifted left by bit_size has (release semantics: the shift amount
is masked modulo 32, the shifted-out bits are discarded) the bit pattern
2^32 - 2^(bit_size mod 32). -/
def ReportVariable.set_unsigned (rv : ReportVariable) (data : Nat) :
    Except DataOutOfBoundsError Unit × ReportVariable :=
  let outside_mask : Nat := 2 ^ 32 - 2 ^ (rv.bit_size % 32)
  if data &&& outside_mask = 0 then
    let internal_offset := rv.bit_offset % 8
    (.ok (), { rv with data := (data <<< internal_offset) % 2 ^ 32 })
  else
    (.error .mk, rv)

/-- ReportVariable::set_signed from format.rs, on the i32 argument "data".
The bit pattern of -1i32 shifted left by bit_size is (release semantics)
2^32 - 2^(bit_size mod 32); the i32 bit pattern of data is the
nonnegative representative of data mod 2^32; "data << 1" doubles the bit
pattern modulo 2^32; the complement of the outside mask is
2^32 - 1 - outside_mask. -/
def ReportVariable.set_signed (rv : ReportVariable) (data : Int) :
    Except DataOutOfBoundsError Unit × ReportVariable :=
  let outside_mask : Nat := 2 ^ 32 - 2 ^ (rv.bit_size % 32)
  let p : Nat := (data % 2 ^ 32).toNat
  if data > 0 ∧ p &&& outside_mask ≠ 0 then
    (.error .mk, rv)
  else if data < 0 ∧ (p * 2 % 2 ^ 32) &&& outside_mask ≠ outside_mask then
    (.error .mk, rv)
  else
    let truncated_data := p &&& (2 ^ 32 - 1 - outside_mask)
    let internal_offset := rv.bit_offset % 8
    (.ok (), { rv with data := (truncated_data <<< internal_offset) % 2 ^ 32 })

/-- take_bit_slice from format.rs. Rust slicing of the index range a..b requires
a <= b <= len and panics otherwise (none). The early empty-slice return for a
failed u32-to-usize cast of the first byte index is unreachable on a 64-bit
host and is not modelled. -/
def take_bit_slice (data : List Nat) (bit_offset bit_size : Nat) :
    Option (List Nat) :=
  let first_byte := bit_offset / 8
  let slice_end_bit_byte := (bit_offset + bit_size) / 8
  let end_alignment := (bit_offset % 8 + bit_size % 8) % 8
  let slice_end_byte :=
    if end_alignment = 0 then slice_end_bit_byte else slice_end_bit_byte + 1
  let safe_slice_end_byte := min slice_end_byte data.length
  if first_byte ≤ safe_slice_end_byte then
    some ((data.take safe_slice_end_byte).drop first_byte)
  else
    none

/-- copy_bit_slice from format.rs. The u8 mask u8::MAX << bit_offset is
modelled with release semantics (shift amount masked modulo 8, result
truncated to a byte); Vec::resize to the desired size both truncates and
zero-pads. -/
def copy_bit_slice (data : List Nat) (bit_offset bit_size : Nat) :
    Option (List Nat) :=
  (take_bit_slice data bit_offset bit_size).map fun slice =>
    let copy :=
      if slice.length > 0 then
        let c0 := slice.set 0
          ((slice.headD 0) &&& ((255 <<< (bit_offset % 8)) % 256))
        let end_alignment := (bit_offset % 8 + bit_size % 8) % 8
        let end_extra_space := if end_alignment = 0 then 0 else 8 - end_alignment
        c0.set (c0.length - 1)
          ((c0.getD (c0.length - 1) 0) &&& ((255 : Nat) >>> end_extra_space))
      else slice
    let bit_end := bit_offset + bit_size
    let desired_size :=
      if bit_end % 8 = 0 then bit_end / 8 else bit_end / 8 + 1
    copy.take desired_size ++ List.replicate (desired_size - copy.length) 0

/-- ReportVariable::copy_data_from_slice from format.rs. The copy into the
8-byte u64 buffer panics when the slice is longer than 8 bytes (none); the
u64-to-u32 conversion unwrap panics when the shifted value does not fit in
32 bits (none). -/
def ReportVariable.copy_data_from_slice (rv : ReportVariable)
    (data : List Nat) (bit_offset : Nat) : Option ReportVariable :=
  (copy_bit_slice data bit_offset rv.bit_size).bind fun slice =>
    if slice.length ≤ 8 then
      let unshifted_data := natOfBytes slice
      let target_internal_shift := rv.bit_offset % 8
      let given_internal_shift := bit_offset % 8
      let shifted_data :=
        if given_internal_shift < target_internal_shift then
          (unshifted_data <<< (target_internal_shift - given_internal_shift))
            % 2 ^ 64
        else
          unshifted_data >>> (given_internal_shift - target_internal_shift)
      if shifted_data < 2 ^ 32 then
        some { rv with data := shifted_data }
      else
        none
    else
      none

/-- ItemType from format.rs. -/
inductive ItemType where
  | Constant
  | Variable
deriving DecidableEq, Repr

/-- ReportItem from format.rs. -/
structure ReportItem where
  item_type : ItemType
  bit_size : Nat
deriving DecidableEq, Repr

/-- ReportFormat from format.rs. -/
structure ReportFormat where
  report_id : Option Nat
  reports : List ReportVariable
  bit_size : Nat
deriving DecidableEq, Repr

/-- ReportFormat::new from format.rs. -/
def ReportFormat.new : ReportFormat := ReportFormat.mk none [] 0

/-- ReportFormat::new_with_opt_id from format.rs. -/
def ReportFormat.new_with_opt_id (report_id : Option Nat) : ReportFormat :=
  ReportFormat.mk report_id [] 0

/-- ReportFormat::push_empty from format.rs. -/
def ReportFormat.push_empty (fmt : ReportFormat) (bit_size : Nat) :
    Except TooLargeError ReportFormat :=
  (ReportVariable.new fmt.bit_size bit_size).map fun rv =>
    { fmt with reports := fmt.reports ++ [rv],
               bit_size := fmt.bit_size + bit_size }

/-- ReportFormat::push_constant from format.rs. -/
def ReportFormat.push_constant (fmt : ReportFormat) (bit_size : Nat) :
    ReportFormat :=
  { fmt with bit_size := fmt.bit_size + bit_size }

/-- ReportFormat::copy_from_iter from format.rs. -/
def ReportFormat.copy_from_iter (fmt : ReportFormat)
    (items : List ReportItem) : Except TooLargeError ReportFormat :=
  items.foldlM
    (fun acc item =>
      match item.item_type with
      | ItemType.Constant => .ok (acc.push_constant item.bit_size)
      | ItemType.Variable => acc.push_empty item.bit_size)
    fmt

/-- OR the byte list bs into st starting at position start (the zip of the
mutable storage sub-slice with the data bytes in ReportFormat::into_bytes;
the zip stops at the shorter of the two). -/
def orBytesAt : List Nat → Nat → List Nat → List Nat
  | st, 0, [] => st
  | [], 0, _ => []
  | d :: st, 0, s :: bs => (d ||| s) :: orBytesAt st 0 bs
  | [], _ + 1, _ => []
  | d :: st, s + 1, bs => d :: orBytesAt st s bs

/-- ReportFormat::into_bytes from format.rs: allocate the byte buffer,
prepend the id, then OR each variable's little-endian staged bytes into
the window of at most 4 bytes starting at id_size + bit_offset/8, clipped
at the buffer's end. The slice of storage from start to stop panics when
start > stop (none). -/
def ReportFormat.write_variable (id_size size_in_bytes : Nat)
    (st : List Nat) (rv : ReportVariable) : Option (List Nat) :=
  let start := id_size + rv.bit_offset / 8
  let stop := min (start + 4) size_in_bytes
  if start ≤ stop ∧ stop ≤ st.length then
    some (orBytesAt st start ((leBytes4 rv.data).take (stop - start)))
  else
    none

/-- ReportFormat::into_bytes continued: fold write_variable over the
variables starting from the id-initialized storage. -/
def ReportFormat.into_bytes (fmt : ReportFormat) : Option (List Nat) :=
  let id_size := if fmt.report_id.isSome then 1 else 0
  let size_in_bytes := id_size + (fmt.bit_size + 7) / 8
  let storage0 :=
    match fmt.report_id with
    | some report_id => (List.replicate size_in_bytes 0).set 0 report_id
    | none => List.replicate size_in_bytes 0
  fmt.reports.foldlM (ReportFormat.write_variable id_size size_in_bytes)
    storage0

/-- Two's complement reading of the low n bits of a bit pattern. -/
def signExtend (n : Nat) (p : Nat) : Int :=
  if p % 2 ^ n < 2 ^ (n - 1) then ((p % 2 ^ n : Nat) : Int)
  else ((p % 2 ^ n : Nat) : Int) - 2 ^ n

/-! ### ReportFormat::into_bytes closed form (C4) -/

/-- The byte that one ReportVariable contributes (by OR) at output index
k, as the specification words it. -/
def varByteContribution (id_size : Nat) (rv : ReportVariable) (k : Nat) :
    Nat :=
  let start := id_size + rv.bit_offset / 8
  if start ≤ k ∧ k < start + 4 then (leBytes4 rv.data).getD (k - start) 0
  else 0

/-- Closed form of ReportFormat::into_bytes output byte k, as the
specification words it: the id byte (at index 0) ORed with every
variable's little-endian contribution. -/
def intoBytesSpecByte (fmt : ReportFormat) (k : Nat) : Nat :=
  let id_size := if fmt.report_id.isSome then 1 else 0
  let id_byte :=
    match fmt.report_id with
    | some i => if k = 0 then i else 0
    | none => 0
  id_byte |||
    fmt.reports.foldr
      (fun rv acc => varByteContribution id_size rv k ||| acc) 0

/-! ## report.rs and collection.rs : the descriptor tree model -/

/-- ReportType from report.rs. -/
inductive ReportType where
  | Input
  | Output
  | Feature
deriving DecidableEq, Repr

/-- ReportType::is_input from report.rs. -/
def ReportType.is_input : ReportType → Bool
  | .Input => true
  | _ => false

/-- ReportType::is_output from report.rs. -/
def ReportType.is_output : ReportType → Bool
  | .Output => true
  | _ => false

/-- ReportType::is_feature from report.rs. -/
def ReportType.is_feature : ReportType → Bool
  | .Feature => true
  | _ => false

/-- ReportMain from report.rs (report_flags is the u32 ReportFlags word). -/
structure ReportMain where
  report_type : ReportType
  report_flags : Nat
deriving DecidableEq, Repr

/-- Report from report.rs. The UsageSet is its list of UsageRanges. -/
structure Report where
  main : ReportMain
  usage_set : List UsageRange
  logical_minimum : Int
  logical_maximum : Int
  report_size : Nat
  report_count : Nat
  physical_minimum : Option Int
  physical_maximum : Option Int
  unit_exponent : Option Int
  unit : Option Nat
  report_id : Option Nat
  designator_index : Option Nat
  designator_minimum : Option Nat
  designator_maximum : Option Nat
  string_index : Option Nat
  string_minimum : Option Nat
  string_maximum : Option Nat
  delimiter : Option Bool
deriving DecidableEq, Repr

/-- Report::is_input from report.rs. -/
def Report.is_input (r : Report) : Bool := r.main.report_type.is_input

/-- Report::is_output from report.rs. -/
def Report.is_output (r : Report) : Bool := r.main.report_type.is_output

/-- Report::is_feature from report.rs. -/
def Report.is_feature (r : Report) : Bool := r.main.report_type.is_feature

mutual

/-- Collection from collection.rs. -/
inductive Collection where
  | mk (collection_type : CollectionType) (usage : Usage)
      (items : List CollectionItem) (designator_index : Option Nat)
      (string_index : Option Nat) (delimiter : Option Bool)

/-- CollectionItem from collection.rs. -/
inductive CollectionItem where
  | report (r : Report)
  | collection (c : Collection)

end

/-! ## tag/tag.rs : Stage A (tree construction) and tag/iter.rs :
Stage B (flattening) -/

/-- TagGroup from tag/tag.rs. -/
inductive TagGroup where
  | tag (t : Tag)
  | group (l : List TagGroup)

mutual

/-- TagGroup::tags from tag/iter.rs: the depth-first flattening of a
TagGroup into its Tag sequence. -/
def TagGroup.tags : TagGroup → List Tag
  | .tag t => [t]
  | .group l => TagGroup.tagsList l

/-- Flattening of a list of TagGroups, in order. -/
def TagGroup.tagsList : List TagGroup → List Tag
  | [] => []
  | g :: gs => TagGroup.tags g ++ TagGroup.tagsList gs

end

/-- TagGroup::usage from tag/tag.rs. -/
def TagGroup.usage : Usage → TagGroup
  | .Standard page id =>
    .group [.tag (.UsagePage page), .tag (.UsageId id)]
  | .Extended e => .group [.tag (.ExtendedUsage e)]

/-- TagGroup::usage_minimum from tag/tag.rs. -/
def TagGroup.usage_minimum : Usage → TagGroup
  | .Standard page id =>
    .group [.tag (.UsagePage page), .tag (.UsageMinimumId id)]
  | .Extended e => .group [.tag (.ExtendedUsageMinimum e)]

/-- TagGroup::usage_maximum from tag/tag.rs. -/
def TagGroup.usage_maximum : Usage → TagGroup
  | .Standard page id =>
    .group [.tag (.UsagePage page), .tag (.UsageMaximumId id)]
  | .Extended e => .group [.tag (.ExtendedUsageMaximum e)]

/-- TagGroup::usage_range from tag/tag.rs. -/
def TagGroup.usage_range (r : UsageRange) : TagGroup :=
  .group
    (if r.len = 1 then [TagGroup.usage r.min]
     else [TagGroup.usage_minimum r.min, TagGroup.usage_maximum r.max])

/-- TagGroup::usage_set from tag/tag.rs. -/
def TagGroup.usage_set (s : List UsageRange) : TagGroup :=
  .group (s.map TagGroup.usage_range)

/-- TagGroup::report_main from tag/tag.rs. -/
def TagGroup.report_main (m : ReportMain) : TagGroup :=
  match m.report_type with
  | .Feature => .tag (.Feature m.report_flags)
  | .Input => .tag (.Input m.report_flags)
  | .Output => .tag (.Output m.report_flags)

/-- The tag group pushed for one optional field (the if-let push pattern
of TagGroup::report and TagGroup::collection). -/
def optTagList (o : Option α) (f : α → Tag) : List TagGroup :=
  match o with
  | some v => [TagGroup.tag (f v)]
  | none => []

/-- TagGroup::report from tag/tag.rs: usage set, required globals,
optional globals in fixed order, then the Main item last. -/
def TagGroup.report (r : Report) : TagGroup :=
  .group
    ([TagGroup.usage_set r.usage_set,
      .tag (.LogicalMinimum r.logical_minimum),
      .tag (.LogicalMaximum r.logical_maximum),
      .tag (.ReportSize r.report_size),
      .tag (.ReportCount r.report_count)] ++
     optTagList r.physical_minimum Tag.PhysicalMinimum ++
     optTagList r.physical_maximum Tag.PhysicalMaximum ++
     optTagList r.unit_exponent Tag.UnitExponent ++
     optTagList r.unit Tag.Unit ++
     optTagList r.report_id Tag.ReportId ++
     [TagGroup.report_main r.main])

mutual

/-- TagGroup::collection from tag/tag.rs. -/
def TagGroup.collection : Collection → TagGroup
  | .mk ct u items di si dl =>
    .group
      ([TagGroup.usage u] ++
       optTagList di Tag.DesignatorIndex ++
       optTagList si Tag.StringIndex ++
       optTagList dl Tag.Delimiter ++
       [TagGroup.tag (.Collection ct),
        TagGroup.collection_items items,
        TagGroup.tag .EndCollection])

/-- TagGroup::collection_item from tag/tag.rs. -/
def TagGroup.collection_item : CollectionItem → TagGroup
  | .report r => TagGroup.report r
  | .collection c => TagGroup.collection c

/-- TagGroup::collection_items from tag/tag.rs (a Group over the items). -/
def TagGroup.collection_items (items : List CollectionItem) : TagGroup :=
  .group (TagGroup.collection_itemsList items)

/-- The mapped list inside TagGroup::collection_items. -/
def TagGroup.collection_itemsList : List CollectionItem → List TagGroup
  | [] => []
  | i :: is => TagGroup.collection_item i :: TagGroup.collection_itemsList is

end

/-- Collection::into_bytes from into_bytes.rs: Stage A (tree), Stage B
(flatten), Stage C (remove duplicates), Stage D (short items to bytes). -/
def Collection.into_bytes (c : Collection) : Option (List Nat) :=
  (TagOptimizer.remove_duplicates (TagGroup.tags (TagGroup.collection c))).bind
    ShortItems.into_bytes

/-! ## iter.rs : report iteration and input_ids (C7) -/

mutual

/-- The report sequence of ReportIter from iter.rs: depth-first, in item
order. -/
def Collection.reports : Collection → List Report
  | .mk _ _ items _ _ _ => CollectionItem.reportsList items

/-- Reports contributed by one CollectionItem. -/
def CollectionItem.reportsOf : CollectionItem → List Report
  | .report r => [r]
  | .collection c => Collection.reports c

/-- Reports of a list of CollectionItems, in order. -/
def CollectionItem.reportsList : List CollectionItem → List Report
  | [] => []
  | i :: is => CollectionItem.reportsOf i ++ CollectionItem.reportsList is

end

/-- fold_unique from iter.rs: append the item unless already present. -/
def fold_unique [DecidableEq α] (vec : List α) (item : α) : List α :=
  if item ∈ vec then vec else vec ++ [item]

/-- ToReportIterator::input_ids from iter.rs (for a single Collection):
fold the input reports' optional ids into a distinct first-seen list,
then demand either a single None (no ids at all) or all Some. The
map(Option::unwrap) of the all-Some branch is written as filterMap id,
which agrees with it on all-Some lists. -/
def ToReportIterator.input_ids (c : Collection) :
    Except MissingIdError (List Nat) :=
  let report_id_opts :=
    (((Collection.reports c).filter fun r => r.is_input).map
      fun r => r.report_id).foldl fold_unique []
  if report_id_opts.length = 1 ∧ report_id_opts.getD 0 none = none then
    .ok []
  else if report_id_opts.all fun o => o.isSome then
    .ok (report_id_opts.filterMap id)
  else
    .error .mk

/-- The distinct first-seen values of a list (the claim's wording of the
Ok result). -/
def distinct_first_seen (l : List Nat) : List Nat := l.foldl fold_unique []

/-- A sample input report for the C7 witness. -/
def sampleReport (id : Option Nat) : Report :=
  Report.mk (ReportMain.mk ReportType.Input 0) [] 0 1 8 1 none none none none
    id none none none none none none none

/-- A sample collection with two input reports, exactly one carrying an
ID, for the C7 witness. -/
def sampleCollection : Collection :=
  Collection.mk CollectionType.Application (Usage.Standard 1 2)
    [CollectionItem.report (sampleReport (some 1)),
     CollectionItem.report (sampleReport none)] none none none

/-! ### Stage C lemmas -/

theorem GlobalTable.set_tag_eq_spec (gt : GlobalTable) (t : Tag)
    (hG : Tag.tag_type t = TagType.Global)
    (hP : t ≠ Tag.Push) (hQ : t ≠ Tag.Pop) :
    GlobalTable.set_tag gt t = some
      (if GlobalTable.slot_tag gt t = some t then gt
       else GlobalTable.store_tag gt t,
       !decide (GlobalTable.slot_tag gt t = some t)) := by
  cases t <;> try (simp [Tag.tag_type] at hG)
  case Push => exact absurd rfl hP
  case Pop => exact absurd rfl hQ
  case UsagePage v =>
    rcases h : gt.usage_page with _ | w
    · simp [GlobalTable.set_tag, GlobalTable.slot_tag, GlobalTable.store_tag,
        replace_option_bool, h]
    · by_cases hw : w = v
      · subst hw
        have hgt : ({ gt with usage_page := some w } : GlobalTable) = gt := by
          cases gt; simp_all
        simp [GlobalTable.set_tag, GlobalTable.slot_tag, replace_option_bool,
          h, hgt]
      · simp [GlobalTable.set_tag, GlobalTable.slot_tag, GlobalTable.store_tag,
          replace_option_bool, h, hw]
  case LogicalMinimum v =>
    rcases h : gt.logical_minimum with _ | w
    · simp [GlobalTable.set_tag, GlobalTable.slot_tag, GlobalTable.store_tag,
        replace_option_bool, h]
    · by_cases hw : w = v
      · subst hw
        have hgt : ({ gt with logical_minimum := some w } : GlobalTable) = gt := by
          cases gt; simp_all
        simp [GlobalTable.set_tag, GlobalTable.slot_tag, replace_option_bool,
          h, hgt]
      · simp [GlobalTable.set_tag, GlobalTable.slot_tag, GlobalTable.store_tag,
          replace_option_bool, h, hw]
  case LogicalMaximum v =>
    rcases h : gt.logical_maximum with _ | w
    · simp [GlobalTable.set_tag, GlobalTable.slot_tag, GlobalTable.store_tag,
        replace_option_bool, h]
    · by_cases hw : w = v
      · subst hw
        have hgt : ({ gt with logical_maximum := some w } : GlobalTable) = gt := by
          cases gt; simp_all
        simp [GlobalTable.set_tag, GlobalTable.slot_tag, replace_option_bool,
          h, hgt]
      · simp [GlobalTable.set_tag, GlobalTable.slot_tag, GlobalTable.store_tag,
          replace_option_bool, h, hw]
  case PhysicalMinimum v =>
    rcases h : gt.physical_minimum with _ | w
    · simp [GlobalTable.set_tag, GlobalTable.slot_tag, GlobalTable.store_tag,
        replace_option_bool, h]
    · by_cases hw : w = v
      · subst hw
        have hgt : ({ gt with physical_minimum := some w } : GlobalTable) = gt := by
          cases gt; simp_all
        simp [GlobalTable.set_tag, GlobalTable.slot_tag, replace_option_bool,
          h, hgt]
      · simp [GlobalTable.set_tag, GlobalTable.slot_tag, GlobalTable.store_tag,
          replace_option_bool, h, hw]
  case PhysicalMaximum v =>
    rcases h : gt.physical_maximum with _ | w
    · simp [GlobalTable.set_tag, GlobalTable.slot_tag, GlobalTable.store_tag,
        replace_option_bool, h]
    · by_cases hw : w = v
      · subst hw
        have hgt : ({ gt with physical_maximum := some w } : GlobalTable) = gt := by
          cases gt; simp_all
        simp [GlobalTable.set_tag, GlobalTable.slot_tag, replace_option_bool,
          h, hgt]
      · simp [GlobalTable.set_tag, GlobalTable.slot_tag, GlobalTable.store_tag,
          replace_option_bool, h, hw]
  case UnitExponent v =>
    rcases h : gt.unit_exponent with _ | w
    · simp [GlobalTable.set_tag, GlobalTable.slot_tag, GlobalTable.store_tag,
        replace_option_bool, h]
    · by_cases hw : w = v
      · subst hw
        have hgt : ({ gt with unit_exponent := some w } : GlobalTable) = gt := by
          cases gt; simp_all
        simp [GlobalTable.set_tag, GlobalTable.slot_tag, replace_option_bool,
          h, hgt]
      · simp [GlobalTable.set_tag, GlobalTable.slot_tag, GlobalTable.store_tag,
          replace_option_bool, h, hw]
  case Unit v =>
    rcases h : gt.unit with _ | w
    · simp [GlobalTable.set_tag, GlobalTable.slot_tag, GlobalTable.store_tag,
        replace_option_bool, h]
    · by_cases hw : w = v
      · subst hw
        have hgt : ({ gt with unit := some w } : GlobalTable) = gt := by
          cases gt; simp_all
        simp [GlobalTable.set_tag, GlobalTable.slot_tag, replace_option_bool,
          h, hgt]
      · simp [GlobalTable.set_tag, GlobalTable.slot_tag, GlobalTable.store_tag,
          replace_option_bool, h, hw]
  case ReportSize v =>
    rcases h : gt.report_size with _ | w
    · simp [GlobalTable.set_tag, GlobalTable.slot_tag, GlobalTable.store_tag,
        replace_option_bool, h]
    · by_cases hw : w = v
      · subst hw
        have hgt : ({ gt with report_size := some w } : GlobalTable) = gt := by
          cases gt; simp_all
        simp [GlobalTable.set_tag, GlobalTable.slot_tag, replace_option_bool,
          h, hgt]
      · simp [GlobalTable.set_tag, GlobalTable.slot_tag, GlobalTable.store_tag,
          replace_option_bool, h, hw]
  case ReportId v =>
    rcases h : gt.report_id with _ | w
    · simp [GlobalTable.set_tag, GlobalTable.slot_tag, GlobalTable.store_tag,
        replace_option_bool, h]
    · by_cases hw : w = v
      · subst hw
        have hgt : ({ gt with report_id := some w } : GlobalTable) = gt := by
          cases gt; simp_all
        simp [GlobalTable.set_tag, GlobalTable.slot_tag, replace_option_bool,
          h, hgt]
      · simp [GlobalTable.set_tag, GlobalTable.slot_tag, GlobalTable.store_tag,
          replace_option_bool, h, hw]
  case ReportCount v =>
    rcases h : gt.report_count with _ | w
    · simp [GlobalTable.set_tag, GlobalTable.slot_tag, GlobalTable.store_tag,
        replace_option_bool, h]
    · by_cases hw : w = v
      · subst hw
        have hgt : ({ gt with report_count := some w } : GlobalTable) = gt := by
          cases gt; simp_all
        simp [GlobalTable.set_tag, GlobalTable.slot_tag, replace_option_bool,
          h, hgt]
      · simp [GlobalTable.set_tag, GlobalTable.slot_tag, GlobalTable.store_tag,
          replace_option_bool, h, hw]

theorem TagOptimizer.delete_marked_cons (t : Tag) (ts : List Tag) (b : Bool)
    (bs : List Bool) :
    TagOptimizer.delete_marked (t :: ts) (b :: bs) =
      if b then TagOptimizer.delete_marked ts bs
      else t :: TagOptimizer.delete_marked ts bs := by
  cases b <;> simp [TagOptimizer.delete_marked]

theorem TagOptimizer.remove_eq_scan : ∀ (tags : List Tag) (gt : GlobalTable),
    (TagOptimizer.mark_duplicates gt tags).map
        (TagOptimizer.delete_marked tags) =
      TagOptimizer.scan_dedup gt tags
  | [], gt => by
    simp [TagOptimizer.mark_duplicates, TagOptimizer.scan_dedup,
      TagOptimizer.delete_marked]
  | t :: ts, gt => by
    cases hG : Tag.tag_type t with
    | Global =>
      simp only [TagOptimizer.mark_duplicates, TagOptimizer.scan_dedup, hG]
      cases hset : GlobalTable.set_tag gt t with
      | none => rfl
      | some p =>
        obtain ⟨gt2, is_new⟩ := p
        dsimp only
        have IH := TagOptimizer.remove_eq_scan ts gt2
        cases hm : TagOptimizer.mark_duplicates gt2 ts with
        | none =>
          rw [hm] at IH
          simp at IH
          simp [hm, ← IH]
        | some bs =>
          rw [hm] at IH
          simp at IH
          rw [← IH]
          simp [TagOptimizer.delete_marked_cons]
          cases is_new <;> simp
    | Main =>
      simp only [TagOptimizer.mark_duplicates, TagOptimizer.scan_dedup, hG]
      have IH := TagOptimizer.remove_eq_scan ts gt
      cases hm : TagOptimizer.mark_duplicates gt ts with
      | none =>
        rw [hm] at IH
        simp at IH
        simp [← IH]
      | some bs =>
        rw [hm] at IH
        simp at IH
        rw [← IH]
        simp [TagOptimizer.delete_marked_cons]
    | Local =>
      simp only [TagOptimizer.mark_duplicates, TagOptimizer.scan_dedup, hG]
      have IH := TagOptimizer.remove_eq_scan ts gt
      cases hm : TagOptimizer.mark_duplicates gt ts with
      | none =>
        rw [hm] at IH
        simp at IH
        simp [← IH]
      | some bs =>
        rw [hm] at IH
        simp at IH
        rw [← IH]
        simp [TagOptimizer.delete_marked_cons]

theorem TagOptimizer.scan_dedup_eq_spec : ∀ (tags : List Tag) (gt : GlobalTable),
    (∀ t ∈ tags, t ≠ Tag.Push ∧ t ≠ Tag.Pop) →
    TagOptimizer.scan_dedup gt tags = some (stageC_spec gt tags)
  | [], _, _ => rfl
  | t :: ts, gt, h => by
    have ht := h t (List.mem_cons_self t ts)
    have hts : ∀ x ∈ ts, x ≠ Tag.Push ∧ x ≠ Tag.Pop :=
      fun x hx => h x (List.mem_cons_of_mem t hx)
    cases hG : Tag.tag_type t with
    | Global =>
      simp only [TagOptimizer.scan_dedup, stageC_spec, hG]
      rw [GlobalTable.set_tag_eq_spec gt t hG ht.1 ht.2]
      by_cases hslot : GlobalTable.slot_tag gt t = some t
      · simp [hslot, TagOptimizer.scan_dedup_eq_spec ts gt hts]
      · simp [hslot,
          TagOptimizer.scan_dedup_eq_spec ts (GlobalTable.store_tag gt t) hts]
    | Main =>
      simp only [TagOptimizer.scan_dedup, stageC_spec, hG]
      simp [TagOptimizer.scan_dedup_eq_spec ts gt hts]
    | Local =>
      simp only [TagOptimizer.scan_dedup, stageC_spec, hG]
      simp [TagOptimizer.scan_dedup_eq_spec ts gt hts]

theorem TagOptimizer.remove_duplicates_eq_spec (tags : List Tag)
    (h : ∀ t ∈ tags, t ≠ Tag.Push ∧ t ≠ Tag.Pop) :
    TagOptimizer.remove_duplicates tags =
      some (stageC_spec GlobalTable.new tags) := by
  unfold TagOptimizer.remove_duplicates
  rw [TagOptimizer.remove_eq_scan]
  exact TagOptimizer.scan_dedup_eq_spec tags GlobalTable.new h

theorem stageC_spec_mem : ∀ (tags : List Tag) (gt : GlobalTable) (x : Tag),
    x ∈ stageC_spec gt tags → x ∈ tags
  | [], _, x, hx => by simp [stageC_spec] at hx
  | t :: ts, gt, x, hx => by
    cases hG : Tag.tag_type t with
    | Global =>
      simp only [stageC_spec, hG] at hx
      by_cases hslot : GlobalTable.slot_tag gt t = some t
      · rw [if_pos hslot] at hx
        exact List.mem_cons_of_mem t (stageC_spec_mem ts gt x hx)
      · rw [if_neg hslot] at hx
        rcases List.mem_cons.mp hx with h1 | h2
        · exact h1 ▸ List.mem_cons_self t ts
        · exact List.mem_cons_of_mem t (stageC_spec_mem ts _ x h2)
    | Main =>
      simp only [stageC_spec, hG] at hx
      rcases List.mem_cons.mp hx with h1 | h2
      · exact h1 ▸ List.mem_cons_self t ts
      · exact List.mem_cons_of_mem t (stageC_spec_mem ts gt x h2)
    | Local =>
      simp only [stageC_spec, hG] at hx
      rcases List.mem_cons.mp hx with h1 | h2
      · exact h1 ▸ List.mem_cons_self t ts
      · exact List.mem_cons_of_mem t (stageC_spec_mem ts gt x h2)

theorem stageC_spec_idem : ∀ (tags : List Tag) (gt : GlobalTable),
    stageC_spec gt (stageC_spec gt tags) = stageC_spec gt tags
  | [], _ => rfl
  | t :: ts, gt => by
    cases hG : Tag.tag_type t with
    | Global =>
      simp only [stageC_spec, hG]
      by_cases hslot : GlobalTable.slot_tag gt t = some t
      · rw [if_pos hslot]
        exact stageC_spec_idem ts gt
      · rw [if_neg hslot]
        simp only [stageC_spec, hG]
        rw [if_neg hslot]
        rw [stageC_spec_idem ts (GlobalTable.store_tag gt t)]
    | Main =>
      simp only [stageC_spec, hG]
      rw [stageC_spec_idem ts gt]
    | Local =>
      simp only [stageC_spec, hG]
      rw [stageC_spec_idem ts gt]

/-- C1 (amended to tag sequences without Push/Pop): for every flat tag
sequence containing no Push and no Pop tag, Stage C
(TagOptimizer::remove_duplicates) succeeds and returns exactly the scan
described by the spec: every Main and Local tag is kept unconditionally in
relative order, and a Global tag is dropped if and only if its value equals
the global state table's current slot for its kind, the slot being updated
to the tag's value otherwise. -/
theorem claim_C1_remove_duplicates_refines_spec (tags : List Tag)
    (h : ∀ t ∈ tags, t ≠ Tag.Push ∧ t ≠ Tag.Pop) :
    TagOptimizer.remove_duplicates tags =
      some (stageC_spec GlobalTable.new tags) :=
  TagOptimizer.remove_duplicates_eq_spec tags h

/-- Witness for C1 at a concrete tag list with a duplicated Global tag. -/
theorem claim_C1_witness :
    (∀ t ∈ [Tag.UsagePage 1, Tag.UsagePage 1, Tag.Input 0],
      t ≠ Tag.Push ∧ t ≠ Tag.Pop) ∧
    TagOptimizer.remove_duplicates [Tag.UsagePage 1, Tag.UsagePage 1, Tag.Input 0] =
      some (stageC_spec GlobalTable.new
        [Tag.UsagePage 1, Tag.UsagePage 1, Tag.Input 0]) :=
  ⟨by decide,
   claim_C1_remove_duplicates_refines_spec
     [Tag.UsagePage 1, Tag.UsagePage 1, Tag.Input 0] (by decide)⟩

/-- Counterexample to C1 as stated (over every flat tag sequence): on a
sequence containing a Push tag the Rust code panics in
GlobalTable::set_tag, so there is no output at all and in particular the
Main tag of the sequence is not kept. -/
theorem claim_C1_counterexample :
    TagOptimizer.remove_duplicates [Tag.Input 0, Tag.Push] = none ∧
    ¬ ∃ out, TagOptimizer.remove_duplicates [Tag.Input 0, Tag.Push] = some out
        ∧ Tag.Input 0 ∈ out := by
  refine ⟨rfl, ?_⟩
  rintro ⟨out, hout, -⟩
  have hn : TagOptimizer.remove_duplicates [Tag.Input 0, Tag.Push] = none := rfl
  rw [hn] at hout
  exact Option.noConfusion hout

/-- C8: Stage C is idempotent on Push/Pop-free tag sequences: applying
remove_duplicates to the output of remove_duplicates yields that output
unchanged. -/
theorem claim_C8_remove_duplicates_idempotent (tags out : List Tag)
    (h : ∀ t ∈ tags, t ≠ Tag.Push ∧ t ≠ Tag.Pop)
    (hout : TagOptimizer.remove_duplicates tags = some out) :
    TagOptimizer.remove_duplicates out = some out := by
  have h1 := TagOptimizer.remove_duplicates_eq_spec tags h
  rw [hout] at h1
  have houteq : out = stageC_spec GlobalTable.new tags := by
    injection h1
  have hout_pp : ∀ t ∈ out, t ≠ Tag.Push ∧ t ≠ Tag.Pop := by
    intro x hx
    exact h x (stageC_spec_mem tags GlobalTable.new x (houteq ▸ hx))
  have h2 := TagOptimizer.remove_duplicates_eq_spec out hout_pp
  rw [h2, houteq, stageC_spec_idem]

/-- Witness for C8 at a concrete tag list. -/
theorem claim_C8_witness :
    ((∀ t ∈ [Tag.UsagePage 1, Tag.ReportSize 8, Tag.UsagePage 1, Tag.Input 0],
        t ≠ Tag.Push ∧ t ≠ Tag.Pop) ∧
      TagOptimizer.remove_duplicates
          [Tag.UsagePage 1, Tag.ReportSize 8, Tag.UsagePage 1, Tag.Input 0] =
        some [Tag.UsagePage 1, Tag.ReportSize 8, Tag.Input 0]) ∧
    TagOptimizer.remove_duplicates [Tag.UsagePage 1, Tag.ReportSize 8, Tag.Input 0] =
      some [Tag.UsagePage 1, Tag.ReportSize 8, Tag.Input 0] :=
  ⟨⟨by decide, by decide⟩,
   claim_C8_remove_duplicates_idempotent
     [Tag.UsagePage 1, Tag.ReportSize 8, Tag.UsagePage 1, Tag.Input 0]
     [Tag.UsagePage 1, Tag.ReportSize 8, Tag.Input 0]
     (by decide) (by decide)⟩

/-! ### Usage model lemmas (C9) -/

theorem Usage.as_u32_lt (u : Usage) (h : u.wf) : u.as_u32 < 2 ^ 32 := by
  cases u with
  | Standard page id =>
    obtain ⟨h1, h2⟩ := h
    refine Nat.or_lt_two_pow ?_ ?_
    · rw [Nat.shiftLeft_eq]
      calc page * 2 ^ 0x10 < 2 ^ 16 * 2 ^ 16 :=
            Nat.mul_lt_mul_of_lt_of_le h1 (Nat.le_refl _) (by norm_num)
        _ = 2 ^ 32 := by norm_num
    · exact lt_trans h2 (by norm_num)
  | Extended value => exact h

/-- C9: for every UsageRange whose fields are in their machine ranges and
which satisfies the construction invariant min <= max, len() equals
max - min + 1 computed over the combined 32-bit values, including at the
boundary where max's combined value is 0xFFFFFFFF (u32 wrap-around). -/
theorem claim_C9_usage_range_len (r : UsageRange)
    (hmin : r.min.wf) (hmax : r.max.wf)
    (hle : r.min.as_u32 ≤ r.max.as_u32) :
    r.len = (r.max.as_u32 - r.min.as_u32 + 1) % 2 ^ 32 := by
  have ha := Usage.as_u32_lt r.max hmax
  have hb := Usage.as_u32_lt r.min hmin
  unfold UsageRange.len
  have hpow : (2 : Nat) ^ 32 = 4294967296 := by norm_num
  rw [hpow] at *
  omega

/-- Witness for C9 at the wrap-around boundary max = 0xFFFFFFFF. -/
theorem claim_C9_witness :
    ((Usage.Extended 0xFFFFFFFE).wf ∧ (Usage.Extended 0xFFFFFFFF).wf ∧
      (Usage.Extended 0xFFFFFFFE).as_u32 ≤ (Usage.Extended 0xFFFFFFFF).as_u32) ∧
    (UsageRange.mk (Usage.Extended 0xFFFFFFFE) (Usage.Extended 0xFFFFFFFF)).len =
      ((Usage.Extended 0xFFFFFFFF).as_u32 - (Usage.Extended 0xFFFFFFFE).as_u32 + 1)
        % 2 ^ 32 :=
  ⟨⟨by decide, by decide, by decide⟩,
   claim_C9_usage_range_len
     (UsageRange.mk (Usage.Extended 0xFFFFFFFE) (Usage.Extended 0xFFFFFFFF))
     (by decide) (by decide) (by decide)⟩

/-- C3 (amended): the unsigned shrink of Stage D picks the smallest data
width among 1, 2 and 4 bytes (never 0) such that the value round-trips
exactly under zero-extension; value 0 in particular is encoded with the
1-byte width. -/
theorem claim_C3_shrink_unsigned (v : Nat) (hv : v < 2 ^ 32) :
    (ShortItemData.shrink (ShortItemData.U32 v)).as_u32 = v ∧
    (ShortItemData.shrink (ShortItemData.U32 v)).size.size ∈ ([1, 2, 4] : List Nat) ∧
    v < 2 ^ (8 * (ShortItemData.shrink (ShortItemData.U32 v)).size.size) ∧
    (∀ w ∈ ([1, 2, 4] : List Nat), v < 2 ^ (8 * w) →
      (ShortItemData.shrink (ShortItemData.U32 v)).size.size ≤ w) := by
  by_cases h1 : v < 256
  · simp only [ShortItemData.shrink, ShortItemData.make_shrunk_unsigned,
      if_pos h1]
    refine ⟨rfl, by simp [ShortItemData.size, BSize.size], ?_, ?_⟩
    · simp only [ShortItemData.size, BSize.size]
      omega
    · intro w hw _
      simp only [List.mem_cons, List.not_mem_nil, or_false] at hw
      simp only [ShortItemData.size, BSize.size]
      omega
  · by_cases h2 : v < 65536
    · simp only [ShortItemData.shrink, ShortItemData.make_shrunk_unsigned,
        if_neg h1, if_pos h2]
      refine ⟨rfl, by simp [ShortItemData.size, BSize.size], ?_, ?_⟩
      · simp only [ShortItemData.size, BSize.size]
        omega
      · intro w hw hround
        simp only [List.mem_cons, List.not_mem_nil, or_false] at hw
        simp only [ShortItemData.size, BSize.size]
        rcases hw with h | h | h <;> subst h <;> simp at hround ⊢ <;> omega
    · simp only [ShortItemData.shrink, ShortItemData.make_shrunk_unsigned,
        if_neg h1, if_neg h2]
      refine ⟨rfl, by simp [ShortItemData.size, BSize.size], ?_, ?_⟩
      · simp only [ShortItemData.size, BSize.size]
        have : (2 : Nat) ^ (8 * 4) = 2 ^ 32 := by norm_num
        omega
      · intro w hw hround
        simp only [List.mem_cons, List.not_mem_nil, or_false] at hw
        simp only [ShortItemData.size, BSize.size]
        rcases hw with h | h | h <;> subst h <;> simp at hround ⊢ <;> omega

/-- Witness for C3 at the value 0x1234 (two-byte shrink). -/
theorem claim_C3_witness :
    0x1234 < 2 ^ 32 ∧
    ((ShortItemData.shrink (ShortItemData.U32 0x1234)).as_u32 = 0x1234 ∧
      (ShortItemData.shrink (ShortItemData.U32 0x1234)).size.size ∈ ([1, 2, 4] : List Nat) ∧
      0x1234 < 2 ^ (8 * (ShortItemData.shrink (ShortItemData.U32 0x1234)).size.size) ∧
      (∀ w ∈ ([1, 2, 4] : List Nat), 0x1234 < 2 ^ (8 * w) →
        (ShortItemData.shrink (ShortItemData.U32 0x1234)).size.size ≤ w)) :=
  ⟨by norm_num, claim_C3_shrink_unsigned 0x1234 (by norm_num)⟩

/-- Counterexample to C3 as stated: a 0-byte data encoding zero-extends to
the value 0 (Empty.as_u32 = 0), yet shrink encodes the value 0 with the
1-byte width, not the 0-byte width. -/
theorem claim_C3_counterexample :
    ShortItemData.as_u32 ShortItemData.Empty = 0 ∧
    (ShortItemData.shrink (ShortItemData.U32 0)).size.size = 1 ∧
    (ShortItemData.shrink (ShortItemData.U32 0)).size.size ≠ 0 := by
  decide

/-! ## Bitwise helper lemmas -/

theorem land_high_mask (x n W : Nat) (hx : x < 2 ^ W) (hn : n ≤ W) :
    x &&& (2 ^ W - 2 ^ n) = x / 2 ^ n * 2 ^ n := by
  apply Nat.eq_of_testBit_eq
  intro i
  have hmask : (2 ^ W - 2 ^ n : Nat) = (2 ^ (W - n) - 1) <<< n := by
    rw [Nat.shiftLeft_eq, Nat.sub_mul, one_mul, ← pow_add]
    congr 2
    omega
  have hdiv : x / 2 ^ n * 2 ^ n = (x >>> n) <<< n := by
    rw [Nat.shiftRight_eq_div_pow, Nat.shiftLeft_eq]
  rw [hmask, hdiv, Nat.testBit_and, Nat.testBit_shiftLeft,
    Nat.testBit_shiftLeft, Nat.testBit_shiftRight,
    Nat.testBit_two_pow_sub_one]
  by_cases hin : n ≤ i
  · have hni : n + (i - n) = i := by omega
    rw [hni]
    by_cases hiW : i < W
    · have h2 : i - n < W - n := by omega
      simp [hin, h2]
    · have hxi : x.testBit i = false :=
        Nat.testBit_lt_two_pow
          (lt_of_lt_of_le hx (Nat.pow_le_pow_right (by norm_num) (by omega)))
      simp [hxi]
  · simp [hin]

theorem land_high_eq_zero_iff (x n W : Nat) (hx : x < 2 ^ W) (hn : n ≤ W) :
    x &&& (2 ^ W - 2 ^ n) = 0 ↔ x < 2 ^ n := by
  rw [land_high_mask x n W hx hn]
  constructor
  · intro h
    have hpos : 0 < 2 ^ n := Nat.pos_pow_of_pos n (by norm_num)
    have hz : x / 2 ^ n = 0 := by
      rcases Nat.mul_eq_zero.mp h with h1 | h1
      · exact h1
      · omega
    exact (Nat.div_eq_zero_iff hpos).mp hz
  · intro h
    rw [Nat.div_eq_of_lt h]
    simp

theorem land_high_eq_self_iff (x n W : Nat) (hx : x < 2 ^ W) (hn : n ≤ W) :
    x &&& (2 ^ W - 2 ^ n) = 2 ^ W - 2 ^ n ↔ 2 ^ W - 2 ^ n ≤ x := by
  rw [land_high_mask x n W hx hn]
  have hpos : 0 < 2 ^ n := Nat.pos_pow_of_pos n (by norm_num)
  have h2 : (2 ^ W - 2 ^ n : Nat) = (2 ^ (W - n) - 1) * 2 ^ n := by
    rw [Nat.sub_mul, one_mul, ← pow_add]
    congr 2
    omega
  constructor
  · intro h
    rw [← h]
    exact Nat.div_mul_le_self x (2 ^ n)
  · intro h
    have hdivle : 2 ^ (W - n) - 1 ≤ x / 2 ^ n := by
      rw [Nat.le_div_iff_mul_le hpos]
      omega
    have hdivlt : x / 2 ^ n < 2 ^ (W - n) := by
      rw [Nat.div_lt_iff_lt_mul hpos]
      rw [← pow_add]
      have hnw : W - n + n = W := by omega
      rw [hnw]
      exact hx
    have hd : x / 2 ^ n = 2 ^ (W - n) - 1 := by omega
    rw [hd, ← h2]

/-- C10: whenever set_unsigned or set_signed returns an error, the
ReportVariable is left completely unchanged (staged data, bit_offset and
bit_size keep their prior values). -/
theorem claim_C10_setter_error_atomicity (rv : ReportVariable) (u : Nat)
    (v : Int) :
    ((ReportVariable.set_unsigned rv u).1.isOk = false →
      (ReportVariable.set_unsigned rv u).2 = rv) ∧
    ((ReportVariable.set_signed rv v).1.isOk = false →
      (ReportVariable.set_signed rv v).2 = rv) := by
  constructor
  · intro h
    unfold ReportVariable.set_unsigned at h ⊢
    dsimp only at h ⊢
    split at h
    next hc => simp [Except.isOk, Except.toBool] at h
    next hc =>
      rw [if_neg hc]
  · intro h
    unfold ReportVariable.set_signed at h ⊢
    dsimp only at h ⊢
    split at h
    next hc1 =>
      rw [if_pos hc1]
    next hc1 =>
      split at h
      next hc2 =>
        rw [if_neg hc1, if_pos hc2]
      next hc2 => simp [Except.isOk, Except.toBool] at h

/-- Witness for C10 at a concrete out-of-range write: a 1-bit variable
rejects the unsigned value 2 and the signed value 5 without changing. -/
theorem claim_C10_witness :
    ((ReportVariable.set_unsigned (ReportVariable.mk 0 1 0) 2).1.isOk = false ∧
      (ReportVariable.set_unsigned (ReportVariable.mk 0 1 0) 2).2 =
        ReportVariable.mk 0 1 0) ∧
    ((ReportVariable.set_signed (ReportVariable.mk 0 1 0) 5).1.isOk = false ∧
      (ReportVariable.set_signed (ReportVariable.mk 0 1 0) 5).2 =
        ReportVariable.mk 0 1 0) :=
  ⟨⟨by decide,
    (claim_C10_setter_error_atomicity (ReportVariable.mk 0 1 0) 2 5).1
      (by decide)⟩,
   ⟨by decide,
    (claim_C10_setter_error_atomicity (ReportVariable.mk 0 1 0) 2 5).2
      (by decide)⟩⟩

theorem set_signed_pattern (v : Int) (h1 : -(2 ^ 31) ≤ v) (h2 : v < 2 ^ 31) :
    ((v % 2 ^ 32).toNat : Int) = v % 2 ^ 32 ∧ (v % 2 ^ 32).toNat < 2 ^ 32 := by
  have hnn : 0 ≤ v % 2 ^ 32 := Int.emod_nonneg v (by norm_num)
  have hlt : v % 2 ^ 32 < 2 ^ 32 := Int.emod_lt_of_pos v (by norm_num)
  refine ⟨Int.toNat_of_nonneg hnn, ?_⟩
  omega

theorem ReportVariable.set_signed_eq (off n d0 : Nat) (v : Int)
    (hn1 : 1 ≤ n) (hn31 : n ≤ 31)
    (hv1 : -(2 ^ 31) ≤ v) (hv2 : v < 2 ^ 31) :
    ReportVariable.set_signed (ReportVariable.mk off n d0) v =
      if -(2 ^ (n - 1)) ≤ v ∧ v < 2 ^ n then
        (.ok (), ReportVariable.mk off n
          (((v % 2 ^ n).toNat <<< (off % 8)) % 2 ^ 32))
      else (.error .mk, ReportVariable.mk off n d0) := by
  have hs : n % 32 = n := Nat.mod_eq_of_lt (by omega)
  obtain ⟨hp, hplt⟩ := set_signed_pattern v hv1 hv2
  have hcastn : ((2 ^ n : Nat) : Int) = 2 ^ n := by push_cast; ring
  have hcastn1 : ((2 ^ (n - 1) : Nat) : Int) = 2 ^ (n - 1) := by push_cast; ring
  have hdoubleN : (2 : Nat) ^ n = 2 * 2 ^ (n - 1) := by
    conv_lhs => rw [show n = (n - 1) + 1 by omega]
    rw [pow_succ]
    ring
  have hnleN : (2 : Nat) ^ n ≤ 2 ^ 31 := Nat.pow_le_pow_right (by norm_num) hn31
  have hn1leN : (2 : Nat) ^ (n - 1) ≤ 2 ^ 30 :=
    Nat.pow_le_pow_right (by norm_num) (by omega)
  have hposn1 : (0 : Nat) < 2 ^ (n - 1) := Nat.pos_pow_of_pos _ (by norm_num)
  unfold ReportVariable.set_signed
  dsimp only
  rw [hs]
  set p := (v % 2 ^ 32).toNat with hpdef
  have hzero : p &&& (2 ^ 32 - 2 ^ n) = 0 ↔ p < 2 ^ n :=
    land_high_eq_zero_iff p n 32 hplt (by omega)
  have hself : ((p * 2 % 2 ^ 32) &&& (2 ^ 32 - 2 ^ n) = 2 ^ 32 - 2 ^ n) ↔
      2 ^ 32 - 2 ^ n ≤ p * 2 % 2 ^ 32 :=
    land_high_eq_self_iff _ n 32 (Nat.mod_lt _ (by norm_num)) (by omega)
  have hmask2 : (2 ^ 32 - 1 - (2 ^ 32 - 2 ^ n) : Nat) = 2 ^ n - 1 := by
    have hle : (2 : Nat) ^ n ≤ 2 ^ 32 :=
      Nat.pow_le_pow_right (by norm_num) (by omega)
    omega
  have htrunc : p &&& (2 ^ 32 - 1 - (2 ^ 32 - 2 ^ n)) = p % 2 ^ n := by
    rw [hmask2]
    exact Nat.and_pow_two_sub_one_eq_mod p n
  have hmodeq : ((p % 2 ^ n : Nat) : Int) = v % 2 ^ n := by
    push_cast
    rw [hp]
    exact Int.emod_emod_of_dvd v (pow_dvd_pow 2 (by omega))
  have hmodnat : (v % 2 ^ n).toNat = p % 2 ^ n := by
    omega
  rw [htrunc]
  by_cases hcv : -(2 ^ (n - 1)) ≤ v ∧ v < 2 ^ n
  · have hc1 : ¬(v > 0 ∧ p &&& (2 ^ 32 - 2 ^ n) ≠ 0) := by
      rintro ⟨hv0, hland⟩
      apply hland
      rw [hzero]
      have hpv : (p : Int) = v := by omega
      have hvn := hcv.2
      omega
    have hc2 : ¬(v < 0 ∧
        (p * 2 % 2 ^ 32) &&& (2 ^ 32 - 2 ^ n) ≠ 2 ^ 32 - 2 ^ n) := by
      rintro ⟨hv0, hland⟩
      apply hland
      rw [hself]
      have hpv : (p : Int) = v + 2 ^ 32 := by omega
      have hvn := hcv.1
      omega
    rw [if_pos hcv, if_neg hc1, if_neg hc2, hmodnat]
  · rw [if_neg hcv]
    push_neg at hcv
    rcases lt_trichotomy v 0 with hvneg | hvzero | hvpos
    · have hvlt : v < -(2 ^ (n - 1)) := by
        by_contra hcon
        push_neg at hcon
        have := hcv hcon
        omega
      have hc1 : ¬(v > 0 ∧ p &&& (2 ^ 32 - 2 ^ n) ≠ 0) := by
        rintro ⟨h0, _⟩
        omega
      have hc2 : v < 0 ∧
          (p * 2 % 2 ^ 32) &&& (2 ^ 32 - 2 ^ n) ≠ 2 ^ 32 - 2 ^ n := by
        refine ⟨hvneg, ?_⟩
        rw [Ne, hself]
        push_neg
        have hpv : (p : Int) = v + 2 ^ 32 := by omega
        omega
      rw [if_neg hc1, if_pos hc2]
    · exfalso
      have := hcv (by omega)
      omega
    · have hge : 2 ^ n ≤ v := hcv (by omega)
      have hc1 : v > 0 ∧ p &&& (2 ^ 32 - 2 ^ n) ≠ 0 := by
        refine ⟨hvpos, ?_⟩
        rw [Ne, hzero]
        push_neg
        have hpv : (p : Int) = v := by omega
        omega
      rw [if_pos hc1]

theorem signExtend_toNat_emod (n : Nat) (v : Int) (hn : 1 ≤ n)
    (h1 : -(2 ^ (n - 1)) ≤ v) (h2 : v < 2 ^ (n - 1)) :
    signExtend n ((v % 2 ^ n).toNat) = v := by
  have hcastn : ((2 ^ n : Nat) : Int) = 2 ^ n := by push_cast; ring
  have hcastn1 : ((2 ^ (n - 1) : Nat) : Int) = 2 ^ (n - 1) := by push_cast; ring
  have hdouble : (2 : Int) ^ n = 2 * 2 ^ (n - 1) := by
    conv_lhs => rw [show n = (n - 1) + 1 by omega]
    rw [pow_succ]
    ring
  have hpow_pos : (0 : Int) < 2 ^ n := by positivity
  have hm : 0 ≤ v % 2 ^ n := Int.emod_nonneg v (by positivity)
  have hmlt : v % 2 ^ n < 2 ^ n := Int.emod_lt_of_pos v hpow_pos
  have hx : ((v % 2 ^ n).toNat : Int) = v % 2 ^ n := Int.toNat_of_nonneg hm
  have hpos1 : (0 : Int) < 2 ^ (n - 1) := by positivity
  have hcase : v % 2 ^ n = v ∨ v % 2 ^ n = v + 2 ^ n := by
    rcases le_or_lt 0 v with hv0 | hv0
    · left
      exact Int.emod_eq_of_lt hv0 (by omega)
    · right
      have h : (v + 2 ^ n * 1) % 2 ^ n = v % 2 ^ n :=
        Int.add_mul_emod_self_left v (2 ^ n) 1
      simp only [mul_one] at h
      rw [← h]
      exact Int.emod_eq_of_lt (by omega) (by omega)
  have hxmod : (v % 2 ^ n).toNat % 2 ^ n = (v % 2 ^ n).toNat := by
    apply Nat.mod_eq_of_lt
    omega
  unfold signExtend
  rw [hxmod]
  split
  next hlt => omega
  next hge => omega

/-- C2 (amended): for bit_size in 1..=31 (with the construction invariant
bit_size + bit_offset mod 8 <= 32), set_signed(v) succeeds if and only if
-2^(bit_size-1) <= v < 2^bit_size — so every two's complement
representable v is accepted and round-trips: the staged data is the
truncated value shifted left by bit_offset mod 8, and sign-extending
data() >> (bit_offset mod 8) from bit_size bits yields v back.
Nonnegative v with bit bit_size-1 set (not representable) are however
also accepted, and at bit_size = 32 the code rejects every nonzero v, so
the claim is restricted accordingly. -/
theorem claim_C2_set_signed_roundtrip (off n d0 : Nat) (v : Int)
    (hn1 : 1 ≤ n) (hn31 : n ≤ 31) (hinv : n + off % 8 ≤ 32)
    (hv1 : -(2 ^ 31) ≤ v) (hv2 : v < 2 ^ 31) :
    ((ReportVariable.set_signed (ReportVariable.mk off n d0) v).1.isOk = true ↔
      (-(2 ^ (n - 1)) ≤ v ∧ v < 2 ^ n)) ∧
    ((-(2 ^ (n - 1)) ≤ v ∧ v < 2 ^ (n - 1)) →
      (ReportVariable.set_signed (ReportVariable.mk off n d0) v).2.data =
        (v % 2 ^ n).toNat <<< (off % 8) ∧
      signExtend n
        ((ReportVariable.set_signed (ReportVariable.mk off n d0) v).2.data
          >>> (off % 8)) = v) := by
  rw [ReportVariable.set_signed_eq off n d0 v hn1 hn31 hv1 hv2]
  have hxlt : (v % 2 ^ n).toNat < 2 ^ n := by
    have hpow_pos : (0 : Int) < 2 ^ n := by positivity
    have hmlt : v % 2 ^ n < 2 ^ n := Int.emod_lt_of_pos v hpow_pos
    have hcastn : ((2 ^ n : Nat) : Int) = 2 ^ n := by push_cast; ring
    omega
  have hshift : ((v % 2 ^ n).toNat <<< (off % 8)) % 2 ^ 32 =
      (v % 2 ^ n).toNat <<< (off % 8) := by
    apply Nat.mod_eq_of_lt
    rw [Nat.shiftLeft_eq]
    calc (v % 2 ^ n).toNat * 2 ^ (off % 8) < 2 ^ n * 2 ^ (off % 8) :=
          (Nat.mul_lt_mul_right (Nat.pos_pow_of_pos _ (by norm_num))).mpr hxlt
      _ = 2 ^ (n + off % 8) := (pow_add 2 n (off % 8)).symm
      _ ≤ 2 ^ 32 := Nat.pow_le_pow_right (by norm_num) hinv
  have hrec : ((v % 2 ^ n).toNat <<< (off % 8)) >>> (off % 8) =
      (v % 2 ^ n).toNat := by
    rw [Nat.shiftLeft_eq, Nat.shiftRight_eq_div_pow]
    exact Nat.mul_div_cancel _ (Nat.pos_pow_of_pos _ (by norm_num))
  constructor
  · by_cases hcv : -(2 ^ (n - 1)) ≤ v ∧ v < 2 ^ n
    · simp [hcv, Except.isOk, Except.toBool]
    · simp [hcv, Except.isOk, Except.toBool]
  · rintro ⟨hr1, hr2⟩
    have hnn : (2 : Int) ^ (n - 1) ≤ 2 ^ n :=
      pow_le_pow_right (by norm_num) (by omega)
    have hcv : -(2 ^ (n - 1)) ≤ v ∧ v < 2 ^ n := ⟨hr1, lt_of_lt_of_le hr2 hnn⟩
    rw [if_pos hcv]
    dsimp only
    refine ⟨hshift, ?_⟩
    rw [hshift, hrec]
    exact signExtend_toNat_emod n v hn1 hr1 hr2

/-- Counterexample to C2 as stated: with bit_size = 8 the value 128 is one
bit wider than representable (two's complement range is -128..=127), yet
set_signed(128) succeeds, and the staged bits sign-extend to -128, not
128. -/
theorem claim_C2_counterexample :
    (ReportVariable.set_signed (ReportVariable.mk 0 8 0) 128).1.isOk = true ∧
    ¬ ((128 : Int) < 2 ^ (8 - 1)) ∧
    signExtend 8
      ((ReportVariable.set_signed (ReportVariable.mk 0 8 0) 128).2.data
        >>> (0 % 8)) = -128 := by
  refine ⟨by decide, by decide, by decide⟩

/-- Witness for C2 at bit_size 8, bit_offset 3, v = -3. -/
theorem claim_C2_witness :
    (1 ≤ 8 ∧ 8 ≤ 31 ∧ 8 + 3 % 8 ≤ 32 ∧
      -(2 ^ 31) ≤ (-3 : Int) ∧ (-3 : Int) < 2 ^ 31) ∧
    (((ReportVariable.set_signed (ReportVariable.mk 3 8 0) (-3)).1.isOk = true ↔
        (-(2 ^ (8 - 1)) ≤ (-3 : Int) ∧ (-3 : Int) < 2 ^ 8)) ∧
      ((-(2 ^ (8 - 1)) ≤ (-3 : Int) ∧ (-3 : Int) < 2 ^ (8 - 1)) →
        (ReportVariable.set_signed (ReportVariable.mk 3 8 0) (-3)).2.data =
          ((-3 : Int) % 2 ^ 8).toNat <<< (3 % 8) ∧
        signExtend 8
          ((ReportVariable.set_signed (ReportVariable.mk 3 8 0) (-3)).2.data
            >>> (3 % 8)) = -3)) :=
  ⟨⟨by norm_num, by norm_num, by norm_num, by norm_num, by norm_num⟩,
   claim_C2_set_signed_roundtrip 3 8 0 (-3) (by norm_num) (by norm_num)
     (by norm_num) (by norm_num) (by norm_num)⟩

theorem orBytesAt_length (st : List Nat) (s : Nat) (bs : List Nat) :
    (orBytesAt st s bs).length = st.length := by
  induction st generalizing s bs with
  | nil => cases s <;> cases bs <;> simp [orBytesAt]
  | cons d st IH =>
    cases s with
    | zero =>
      cases bs with
      | nil => simp [orBytesAt]
      | cons b bs => simp [orBytesAt, IH]
    | succ s => simp [orBytesAt, IH]

theorem orBytesAt_getD (st : List Nat) (s : Nat) (bs : List Nat) (k : Nat)
    (hk : k < st.length) :
    (orBytesAt st s bs).getD k 0 =
      if s ≤ k ∧ k - s < bs.length then st.getD k 0 ||| bs.getD (k - s) 0
      else st.getD k 0 := by
  induction st generalizing s bs k with
  | nil => simp at hk
  | cons d st IH =>
    cases s with
    | zero =>
      cases bs with
      | nil => simp [orBytesAt]
      | cons b bs =>
        cases k with
        | zero => simp [orBytesAt]
        | succ k =>
          have hk2 : k < st.length := by simpa using hk
          simp only [orBytesAt, List.getD_cons_succ]
          rw [IH 0 bs k hk2]
          by_cases hkb : k < bs.length
          · rw [if_pos (by omega : 0 ≤ k ∧ k - 0 < bs.length),
              if_pos (by simp; omega : 0 ≤ k + 1 ∧ k + 1 - 0 < (b :: bs).length)]
            simp
          · rw [if_neg (by omega : ¬(0 ≤ k ∧ k - 0 < bs.length)),
              if_neg (by simp; omega : ¬(0 ≤ k + 1 ∧ k + 1 - 0 < (b :: bs).length))]
    | succ s =>
      cases k with
      | zero =>
        simp only [orBytesAt, List.getD_cons_zero]
        rw [if_neg (by omega)]
      | succ k =>
        have hk2 : k < st.length := by simpa using hk
        simp only [orBytesAt, List.getD_cons_succ]
        rw [IH s bs k hk2]
        by_cases hkb : s ≤ k ∧ k - s < bs.length
        · rw [if_pos hkb, if_pos (by omega : s + 1 ≤ k + 1 ∧ k + 1 - (s + 1) < bs.length)]
          have : k + 1 - (s + 1) = k - s := by omega
          rw [this]
        · rw [if_neg hkb,
            if_neg (by omega : ¬(s + 1 ≤ k + 1 ∧ k + 1 - (s + 1) < bs.length))]

theorem getD_take_eq (l : List Nat) (n i : Nat) (hi : i < n) :
    (l.take n).getD i 0 = l.getD i 0 := by
  induction l generalizing n i with
  | nil => simp
  | cons a l IH =>
    cases n with
    | zero => omega
    | succ n =>
      cases i with
      | zero => simp
      | succ i => simpa using IH n i (by omega)

theorem replicate_getD (n k : Nat) : (List.replicate n (0 : Nat)).getD k 0 = 0 := by
  induction n generalizing k with
  | zero => simp
  | succ n IH =>
    cases k with
    | zero => simp
    | succ k => simpa using IH k

theorem write_variable_spec (id_size size_in_bytes : Nat) (st : List Nat)
    (rv : ReportVariable) (hst : st.length = size_in_bytes)
    (hb : id_size + rv.bit_offset / 8 ≤ size_in_bytes) :
    ∃ st2,
      ReportFormat.write_variable id_size size_in_bytes st rv = some st2 ∧
      st2.length = size_in_bytes ∧
      ∀ k, k < size_in_bytes →
        st2.getD k 0 = st.getD k 0 ||| varByteContribution id_size rv k := by
  unfold ReportFormat.write_variable
  dsimp only
  have hcond : id_size + rv.bit_offset / 8 ≤
      min (id_size + rv.bit_offset / 8 + 4) size_in_bytes ∧
      min (id_size + rv.bit_offset / 8 + 4) size_in_bytes ≤ st.length := by
    omega
  rw [if_pos hcond]
  refine ⟨_, rfl, ?_, ?_⟩
  · rw [orBytesAt_length]
    exact hst
  · intro k hk
    rw [orBytesAt_getD _ _ _ _ (by omega)]
    have hbs_len : ((leBytes4 rv.data).take
        (min (id_size + rv.bit_offset / 8 + 4) size_in_bytes -
          (id_size + rv.bit_offset / 8))).length =
        min (id_size + rv.bit_offset / 8 + 4) size_in_bytes -
          (id_size + rv.bit_offset / 8) := by
    {
      rw [List.length_take]
      have h4 : (leBytes4 rv.data).length = 4 := by simp [leBytes4]
      rw [h4]
      omega
    }
    rw [hbs_len]
    unfold varByteContribution
    dsimp only
    by_cases hin : id_size + rv.bit_offset / 8 ≤ k ∧
        k < id_size + rv.bit_offset / 8 + 4
    · rw [if_pos (by omega), if_pos hin]
      congr 1
      exact getD_take_eq _ _ _ (by omega)
    · rw [if_neg (by omega), if_neg hin, Nat.or_zero]

theorem into_bytes_fold (id_size size_in_bytes : Nat) :
    ∀ (l : List ReportVariable) (st : List Nat),
    st.length = size_in_bytes →
    (∀ rv ∈ l, id_size + rv.bit_offset / 8 ≤ size_in_bytes) →
    ∃ out,
      List.foldlM (ReportFormat.write_variable id_size size_in_bytes) st l =
        some out ∧
      out.length = size_in_bytes ∧
      ∀ k, k < size_in_bytes →
        out.getD k 0 = st.getD k 0 |||
          l.foldr (fun rv acc => varByteContribution id_size rv k ||| acc) 0
  | [], st, hst, _ => ⟨st, by simp, hst, by intro k _; simp⟩
  | rv :: l, st, hst, hb => by
    obtain ⟨st2, h1, h2, h3⟩ :=
      write_variable_spec id_size size_in_bytes st rv hst
        (hb rv (List.mem_cons_self rv l))
    obtain ⟨out, h4, h5, h6⟩ :=
      into_bytes_fold id_size size_in_bytes l st2 h2
        (fun x hx => hb x (List.mem_cons_of_mem rv hx))
    refine ⟨out, ?_, h5, ?_⟩
    · rw [List.foldlM_cons, h1]
      simpa using h4
    · intro k hk
      rw [h6 k hk, h3 k hk, List.foldr_cons, Nat.or_assoc]

theorem contrib_foldr_zero (l : List ReportVariable) (id_size k : Nat)
    (h : ∀ rv ∈ l, varByteContribution id_size rv k = 0) :
    l.foldr (fun rv acc => varByteContribution id_size rv k ||| acc) 0 = 0 := by
  induction l with
  | nil => rfl
  | cons rv l IH =>
    rw [List.foldr_cons, h rv (List.mem_cons_self rv l),
      IH (fun x hx => h x (List.mem_cons_of_mem rv hx))]
    rfl

/-- C4: for every ReportFormat whose variables lie inside the declared
total bit size (which every format built through the public API does),
into_bytes() returns exactly ceil(total_bit_size/8) + (1 if a report_id
is present) bytes, byte 0 is the report_id when present, and every
output byte is the OR of the id byte with each variable's little-endian
staged bytes placed at id_offset + bit_offset/8 and clipped at the
buffer's end — so variables sharing a byte each contribute only their
own bits. -/
theorem claim_C4_report_format_into_bytes (fmt : ReportFormat)
    (hinv : ∀ rv ∈ fmt.reports, rv.bit_offset ≤ fmt.bit_size) :
    ∃ bs, fmt.into_bytes = some bs ∧
      bs.length =
        (if fmt.report_id.isSome then 1 else 0) + (fmt.bit_size + 7) / 8 ∧
      (∀ i, fmt.report_id = some i → bs.getD 0 0 = i) ∧
      (∀ k, k < bs.length → bs.getD k 0 = intoBytesSpecByte fmt k) := by
  have hdivle : ∀ rv ∈ fmt.reports,
      rv.bit_offset / 8 ≤ (fmt.bit_size + 7) / 8 := by
    intro rv hrv
    exact Nat.div_le_div_right (le_trans (hinv rv hrv) (by omega))
  unfold ReportFormat.into_bytes
  rcases hrid : fmt.report_id with _ | i
  · simp only [hrid, Option.isSome_none, Bool.false_eq_true, if_neg,
      ite_false]
    obtain ⟨out, h1, h2, h3⟩ :=
      into_bytes_fold 0 (0 + (fmt.bit_size + 7) / 8) fmt.reports
        (List.replicate (0 + (fmt.bit_size + 7) / 8) 0) (by simp)
        (fun rv hrv => by have := hdivle rv hrv; omega)
    refine ⟨out, h1, by omega, ?_, ?_⟩
    · intro i hi
      cases hi
    · intro k hk
      rw [h2] at hk
      rw [h3 k hk, replicate_getD]
      unfold intoBytesSpecByte
      simp [hrid]
  · simp only [hrid, Option.isSome_some, ite_true]
    obtain ⟨out, h1, h2, h3⟩ :=
      into_bytes_fold 1 (1 + (fmt.bit_size + 7) / 8) fmt.reports
        ((List.replicate (1 + (fmt.bit_size + 7) / 8) 0).set 0 i)
        (by simp)
        (fun rv hrv => by have := hdivle rv hrv; omega)
    have hst0 : ∀ k, k < 1 + (fmt.bit_size + 7) / 8 →
        ((List.replicate (1 + (fmt.bit_size + 7) / 8) 0).set 0 i).getD k 0 =
          if k = 0 then i else 0 := by
      intro k hk
      have hrepl : List.replicate (1 + (fmt.bit_size + 7) / 8) (0 : Nat) =
          0 :: List.replicate ((fmt.bit_size + 7) / 8) 0 := by
        rw [Nat.add_comm, List.replicate_succ]
      rw [hrepl]
      cases k with
      | zero => simp
      | succ k => simp [replicate_getD]
    refine ⟨out, h1, by omega, ?_, ?_⟩
    · intro j hj
      injection hj with hj
      subst hj
      rw [h3 0 (by omega), hst0 0 (by omega)]
      rw [contrib_foldr_zero]
      · simp
      · intro rv _
        unfold varByteContribution
        rw [if_neg (by omega)]
    · intro k hk
      rw [h2] at hk
      rw [h3 k hk, hst0 k hk]
      unfold intoBytesSpecByte
      simp [hrid]

/-- Witness for C4: a format with id 1 and two 4-bit variables sharing
the single data byte (staged nibbles 0x5 and 0xA shifted into place). -/
theorem claim_C4_witness :
    (∀ rv ∈ (ReportFormat.mk (some 1)
        [ReportVariable.mk 0 4 5, ReportVariable.mk 4 4 160] 8).reports,
      rv.bit_offset ≤
        (ReportFormat.mk (some 1)
          [ReportVariable.mk 0 4 5, ReportVariable.mk 4 4 160] 8).bit_size) ∧
    ∃ bs,
      (ReportFormat.mk (some 1)
        [ReportVariable.mk 0 4 5, ReportVariable.mk 4 4 160] 8).into_bytes =
          some bs ∧
      bs.length = (if (some 1 : Option Nat).isSome then 1 else 0) +
        ((8 : Nat) + 7) / 8 ∧
      (∀ i, (some 1 : Option Nat) = some i → bs.getD 0 0 = i) ∧
      (∀ k, k < bs.length →
        bs.getD k 0 = intoBytesSpecByte
          (ReportFormat.mk (some 1)
            [ReportVariable.mk 0 4 5, ReportVariable.mk 4 4 160] 8) k) :=
  ⟨by decide,
   claim_C4_report_format_into_bytes
     (ReportFormat.mk (some 1)
       [ReportVariable.mk 0 4 5, ReportVariable.mk 4 4 160] 8)
     (by decide)⟩

/-- Every ReportFormat built by copy_from_iter (the only public way to add
variables) keeps each variable's offset within the declared total bit
size, which is the hypothesis of the into_bytes theorem. -/
theorem ReportFormat.copy_from_iter_preserves_bounds :
    ∀ (items : List ReportItem) (fmt fmt2 : ReportFormat),
    (∀ rv ∈ fmt.reports, rv.bit_offset ≤ fmt.bit_size) →
    ReportFormat.copy_from_iter fmt items = .ok fmt2 →
    ∀ rv ∈ fmt2.reports, rv.bit_offset ≤ fmt2.bit_size
  | [], fmt, fmt2, hf, h => by
    unfold ReportFormat.copy_from_iter at h
    simp only [List.foldlM_nil] at h
    injection h with h
    subst h
    exact hf
  | item :: items, fmt, fmt2, hf, h => by
    unfold ReportFormat.copy_from_iter at h
    rw [List.foldlM_cons] at h
    cases hit : item.item_type with
    | Constant =>
      rw [hit] at h
      have h2 : ReportFormat.copy_from_iter (fmt.push_constant item.bit_size)
          items = .ok fmt2 := h
      refine ReportFormat.copy_from_iter_preserves_bounds items _ fmt2 ?_ h2
      intro rv hrv
      unfold ReportFormat.push_constant
      dsimp only
      exact le_trans (hf rv hrv) (by omega)
    | Variable =>
      rw [hit] at h
      unfold ReportFormat.push_empty at h
      cases hnew : ReportVariable.new fmt.bit_size item.bit_size with
      | error e =>
        rw [hnew] at h
        exact Except.noConfusion h
      | ok rv2 =>
        rw [hnew] at h
        have h2 : ReportFormat.copy_from_iter
            { fmt with reports := fmt.reports ++ [rv2],
                       bit_size := fmt.bit_size + item.bit_size } items =
              .ok fmt2 := h
        refine ReportFormat.copy_from_iter_preserves_bounds items _ fmt2 ?_ h2
        intro rv hrv
        dsimp only at hrv ⊢
        rcases List.mem_append.mp hrv with hm | hm
        · exact le_trans (hf rv hm) (by omega)
        · have hrv2 : rv = rv2 := by simpa using hm
          subst hrv2
          unfold ReportVariable.new at hnew
          dsimp only at hnew
          split at hnew
          · injection hnew with hnew
            rw [← hnew]
            dsimp only
            omega
          · cases hnew

/-- C5 failing-input evaluation: for a 20-bit variable read from the
2-byte buffer 0xFF 0xFF at source offset 0, copy_bit_slice applies the
trailing-edge mask to the buffer's last byte (inside the 20-bit window)
instead of the window's last byte, so the staged value is 0x0FFF, while
the 20-bit window of the buffer zero-extends to 0xFFFF (what
set_unsigned would stage). -/
theorem claim_C5_failing_input_eval :
    ReportVariable.copy_data_from_slice (ReportVariable.mk 0 20 0)
        [255, 255] 0 =
      some (ReportVariable.mk 0 20 0x0FFF) ∧
    (natOfBytes [255, 255] >>> 0) % 2 ^ 20 = 0xFFFF ∧
    (ReportVariable.set_unsigned (ReportVariable.mk 0 20 0) 0xFFFF).1.isOk
      = true ∧
    (ReportVariable.set_unsigned (ReportVariable.mk 0 20 0) 0xFFFF).2.data
      = 0xFFFF ∧
    (0x0FFF : Nat) ≠ 0xFFFF := by
  refine ⟨by decide, by decide, by decide, by decide, by decide⟩

/-! ### Stage C never panics on Stage A output (C6) -/

theorem tagsList_append (l1 l2 : List TagGroup) :
    TagGroup.tagsList (l1 ++ l2) =
      TagGroup.tagsList l1 ++ TagGroup.tagsList l2 := by
  induction l1 with
  | nil => simp [TagGroup.tagsList]
  | cons g gs IH => simp [TagGroup.tagsList, IH]

theorem npp_usage (u : Usage) :
    ∀ t ∈ (TagGroup.usage u).tags, t ≠ Tag.Push ∧ t ≠ Tag.Pop := by
  cases u <;> intro t ht <;>
    simp [TagGroup.usage, TagGroup.tags, TagGroup.tagsList] at ht
  · rcases ht with h | h <;> subst h <;> exact ⟨by simp, by simp⟩
  · subst ht
    exact ⟨by simp, by simp⟩

theorem npp_usage_minimum (u : Usage) :
    ∀ t ∈ (TagGroup.usage_minimum u).tags, t ≠ Tag.Push ∧ t ≠ Tag.Pop := by
  cases u <;> intro t ht <;>
    simp [TagGroup.usage_minimum, TagGroup.tags, TagGroup.tagsList] at ht
  · rcases ht with h | h <;> subst h <;> exact ⟨by simp, by simp⟩
  · subst ht
    exact ⟨by simp, by simp⟩

theorem npp_usage_maximum (u : Usage) :
    ∀ t ∈ (TagGroup.usage_maximum u).tags, t ≠ Tag.Push ∧ t ≠ Tag.Pop := by
  cases u <;> intro t ht <;>
    simp [TagGroup.usage_maximum, TagGroup.tags, TagGroup.tagsList] at ht
  · rcases ht with h | h <;> subst h <;> exact ⟨by simp, by simp⟩
  · subst ht
    exact ⟨by simp, by simp⟩

theorem npp_usage_range (r : UsageRange) :
    ∀ t ∈ (TagGroup.usage_range r).tags, t ≠ Tag.Push ∧ t ≠ Tag.Pop := by
  intro t ht
  unfold TagGroup.usage_range at ht
  by_cases hlen : r.len = 1
  · rw [if_pos hlen] at ht
    simp only [TagGroup.tags, TagGroup.tagsList, List.append_nil] at ht
    exact npp_usage r.min t ht
  · rw [if_neg hlen] at ht
    simp only [TagGroup.tags, TagGroup.tagsList, List.append_nil] at ht
    rcases List.mem_append.mp ht with h | h
    · exact npp_usage_minimum r.min t h
    · exact npp_usage_maximum r.max t h

theorem npp_usage_set (s : List UsageRange) :
    ∀ t ∈ (TagGroup.usage_set s).tags, t ≠ Tag.Push ∧ t ≠ Tag.Pop := by
  induction s with
  | nil => intro t ht; simp [TagGroup.usage_set, TagGroup.tags,
      TagGroup.tagsList] at ht
  | cons r rs IH =>
    intro t ht
    simp only [TagGroup.usage_set, TagGroup.tags, List.map_cons,
      TagGroup.tagsList] at ht
    rcases List.mem_append.mp ht with h | h
    · exact npp_usage_range r t h
    · exact IH t h

theorem npp_optTagList (o : Option α) (f : α → Tag)
    (hf : ∀ v, f v ≠ Tag.Push ∧ f v ≠ Tag.Pop) :
    ∀ t ∈ TagGroup.tagsList (optTagList o f),
      t ≠ Tag.Push ∧ t ≠ Tag.Pop := by
  cases o with
  | none => intro t ht; simp [optTagList, TagGroup.tagsList] at ht
  | some v =>
    intro t ht
    simp [optTagList, TagGroup.tagsList, TagGroup.tags] at ht
    subst ht
    exact hf v

theorem npp_report_main (m : ReportMain) :
    ∀ t ∈ (TagGroup.report_main m).tags, t ≠ Tag.Push ∧ t ≠ Tag.Pop := by
  obtain ⟨rt, fl⟩ := m
  intro t ht
  cases rt <;>
    simp [TagGroup.report_main, TagGroup.tags] at ht <;> subst ht <;>
    exact ⟨by simp, by simp⟩

theorem npp_report (r : Report) :
    ∀ t ∈ (TagGroup.report r).tags, t ≠ Tag.Push ∧ t ≠ Tag.Pop := by
  intro t ht
  unfold TagGroup.report at ht
  simp only [TagGroup.tags] at ht
  rw [tagsList_append, tagsList_append, tagsList_append, tagsList_append,
    tagsList_append, tagsList_append] at ht
  simp only [List.mem_append] at ht
  rcases ht with (((((h | h) | h) | h) | h) | h) | h
  · simp only [TagGroup.tagsList, TagGroup.tags, List.append_nil] at h
    rcases List.mem_append.mp h with h1 | h1
    · exact npp_usage_set r.usage_set t h1
    · simp at h1
      rcases h1 with h2 | h2 | h2 | h2 <;> subst h2 <;>
        exact ⟨by simp, by simp⟩
  · exact npp_optTagList _ _ (fun v => ⟨by simp, by simp⟩) t h
  · exact npp_optTagList _ _ (fun v => ⟨by simp, by simp⟩) t h
  · exact npp_optTagList _ _ (fun v => ⟨by simp, by simp⟩) t h
  · exact npp_optTagList _ _ (fun v => ⟨by simp, by simp⟩) t h
  · exact npp_optTagList _ _ (fun v => ⟨by simp, by simp⟩) t h
  · simp only [TagGroup.tagsList, List.append_nil] at h
    exact npp_report_main r.main t h

mutual

theorem npp_collection : ∀ (c : Collection),
    ∀ t ∈ (TagGroup.collection c).tags, t ≠ Tag.Push ∧ t ≠ Tag.Pop
  | .mk ct u items di si dl => by
    intro t ht
    unfold TagGroup.collection at ht
    simp only [TagGroup.tags] at ht
    rw [tagsList_append, tagsList_append, tagsList_append,
      tagsList_append] at ht
    simp only [List.mem_append] at ht
    rcases ht with (((h | h) | h) | h) | h
    · simp only [TagGroup.tagsList, List.append_nil] at h
      exact npp_usage u t h
    · exact npp_optTagList _ _ (fun v => ⟨by simp, by simp⟩) t h
    · exact npp_optTagList _ _ (fun v => ⟨by simp, by simp⟩) t h
    · exact npp_optTagList _ _ (fun v => ⟨by simp, by simp⟩) t h
    · simp only [TagGroup.tagsList, TagGroup.tags, List.append_nil,
        TagGroup.collection_items] at h
      simp only [List.mem_append, List.mem_cons, List.mem_singleton,
        List.not_mem_nil, or_false] at h
      rcases h with h | h | h
      · subst h
        exact ⟨by simp, by simp⟩
      · exact npp_itemsList items t h
      · subst h
        exact ⟨by simp, by simp⟩

theorem npp_item : ∀ (i : CollectionItem),
    ∀ t ∈ (TagGroup.collection_item i).tags, t ≠ Tag.Push ∧ t ≠ Tag.Pop
  | .report r => by
    intro t ht
    rw [show TagGroup.collection_item (CollectionItem.report r) =
        TagGroup.report r from by rw [TagGroup.collection_item]] at ht
    exact npp_report r t ht
  | .collection c => by
    intro t ht
    rw [show TagGroup.collection_item (CollectionItem.collection c) =
        TagGroup.collection c from by rw [TagGroup.collection_item]] at ht
    exact npp_collection c t ht

theorem npp_itemsList : ∀ (l : List CollectionItem),
    ∀ t ∈ TagGroup.tagsList (TagGroup.collection_itemsList l),
      t ≠ Tag.Push ∧ t ≠ Tag.Pop
  | [] => by
    intro t ht
    simp [TagGroup.collection_itemsList, TagGroup.tagsList] at ht
  | i :: is => by
    intro t ht
    simp only [TagGroup.collection_itemsList, TagGroup.tagsList] at ht
    rcases List.mem_append.mp ht with h | h
    · exact npp_item i t h
    · exact npp_itemsList is t h

end

/-! ### Stage D is total (C6) -/

theorem land_lor_distrib (x y m : Nat) :
    (x ||| y) &&& m = (x &&& m) ||| (y &&& m) := by
  apply Nat.eq_of_testBit_eq
  intro i
  simp [Nat.testBit_and, Nat.testBit_or, Bool.and_or_distrib_right]

theorem from_u8_low_bits (v : Nat) : ItemPrefixByte.from_u8 v &&& 3 = 0 := by
  unfold ItemPrefixByte.from_u8
  rw [Nat.and_assoc]
  rw [show (0xfc &&& 3 : Nat) = 0 from rfl]
  simp

theorem with_size_size (p : Nat) (hp : p &&& 3 = 0) (sz : BSize) :
    SizeTypeTag.size (ItemPrefixByte.with_size p sz) = some sz := by
  unfold SizeTypeTag.size ItemPrefixByte.with_size
  rw [land_lor_distrib, hp, Nat.zero_or]
  cases sz <;> rfl

theorem with_data_into_bytes_isSome (p : Nat) (hp : p &&& 3 = 0)
    (d : ShortItemData) :
    (ShortItem.into_bytes (ItemPrefixByte.with_data p d)).isSome = true := by
  unfold ShortItem.into_bytes ItemPrefixByte.with_data
  dsimp only
  rw [with_size_size p hp d.size]
  rfl

theorem from_tag_into_bytes_isSome (t : Tag) :
    (ShortItem.into_bytes (ShortItem.from_tag t)).isSome = true := by
  cases t <;>
    exact with_data_into_bytes_isSome _ (from_u8_low_bits _) _

theorem mapM_into_bytes_isSome (l : List Tag) :
    (((l.map ShortItem.from_tag).mapM ShortItem.into_bytes)).isSome = true := by
  induction l with
  | nil => rfl
  | cons t ts IH =>
    simp only [List.map_cons, List.mapM_cons]
    have h1 := from_tag_into_bytes_isSome t
    cases hb : ShortItem.into_bytes (ShortItem.from_tag t) with
    | none => rw [hb] at h1; simp at h1
    | some bs =>
      cases hm : (ts.map ShortItem.from_tag).mapM ShortItem.into_bytes with
      | none => rw [hm] at IH; simp at IH
      | some rest => simp [hb, hm]

theorem shortItems_into_bytes_isSome (l : List Tag) :
    (ShortItems.into_bytes l).isSome = true := by
  unfold ShortItems.into_bytes
  have h := mapM_into_bytes_isSome l
  cases hm : (l.map ShortItem.from_tag).mapM ShortItem.into_bytes with
  | none => rw [hm] at h; simp at h
  | some out => simp

/-- C6: Collection::into_bytes is total: for every Collection the whole
four-stage pipeline succeeds — Stage A and B by construction, Stage C
because the flattened tag sequence of a Collection never contains Push or
Pop (so the GlobalTable::set_tag panic arm is unreachable), and Stage D
because every tag encodes to a well-sized short item. -/
theorem claim_C6_collection_into_bytes_total (c : Collection) :
    (Collection.into_bytes c).isSome = true := by
  unfold Collection.into_bytes
  rw [TagOptimizer.remove_duplicates_eq_spec _ (npp_collection c)]
  simp only [Option.some_bind]
  exact shortItems_into_bytes_isSome _

theorem mem_foldl_fold_unique [DecidableEq α] :
    ∀ (l : List α) (acc : List α) (x : α),
    x ∈ l.foldl fold_unique acc ↔ x ∈ acc ∨ x ∈ l
  | [], acc, x => by simp
  | a :: l, acc, x => by
    rw [List.foldl_cons, mem_foldl_fold_unique l (fold_unique acc a) x]
    unfold fold_unique
    by_cases ha : a ∈ acc
    · rw [if_pos ha]
      simp only [List.mem_cons]
      constructor
      · tauto
      · rintro (h | h | h)
        · tauto
        · exact Or.inl (h ▸ ha)
        · tauto
    · rw [if_neg ha]
      simp only [List.mem_append, List.mem_cons, List.mem_singleton,
        List.not_mem_nil, or_false]
      tauto

theorem foldl_fold_unique_all_none :
    ∀ (l : List (Option Nat)),
    (∀ x ∈ l, x = none) →
    l.foldl fold_unique [(none : Option Nat)] = [none]
  | [], _ => rfl
  | a :: l, h => by
    rw [List.foldl_cons]
    have ha : a = none := h a (List.mem_cons_self a l)
    subst ha
    rw [show fold_unique [(none : Option Nat)] none = [none] from rfl]
    exact foldl_fold_unique_all_none l
      (fun x hx => h x (List.mem_cons_of_mem _ hx))

theorem foldl_fold_unique_map_some :
    ∀ (vals : List Nat) (acc : List Nat),
    (vals.map some).foldl fold_unique (acc.map some) =
      (vals.foldl fold_unique acc).map some
  | [], acc => rfl
  | v :: vals, acc => by
    rw [List.map_cons, List.foldl_cons, List.foldl_cons]
    have hstep : fold_unique (acc.map some) (some v) =
        (fold_unique acc v).map some := by
      unfold fold_unique
      by_cases hv : v ∈ acc
      · rw [if_pos (by simpa using hv), if_pos hv]
      · rw [if_neg (by simpa using hv), if_neg hv]
        simp
    rw [hstep]
    exact foldl_fold_unique_map_some vals (fold_unique acc v)

theorem all_some_decomp :
    ∀ (l : List (Option Nat)),
    (∀ x ∈ l, x.isSome = true) →
    l = (l.filterMap id).map some
  | [], _ => rfl
  | a :: l, h => by
    have ha := h a (List.mem_cons_self a l)
    cases a with
    | none => simp at ha
    | some v =>
      rw [List.filterMap_cons]
      simp only [id]
      rw [List.map_cons]
      congr 1
      exact all_some_decomp l (fun x hx => h x (List.mem_cons_of_mem _ hx))

theorem filterMap_id_map_some (l : List Nat) :
    (l.map some).filterMap id = l := by
  induction l with
  | nil => rfl
  | cons a l IH =>
    rw [List.map_cons, List.filterMap_cons]
    simp only [id]
    rw [IH]

theorem filterMap_id_map_report (l : List Report) :
    ((l.map fun r => r.report_id).filterMap id) =
      l.filterMap fun r => r.report_id := by
  induction l with
  | nil => rfl
  | cons r l IH =>
    rw [List.map_cons, List.filterMap_cons, List.filterMap_cons]
    cases hr : r.report_id <;> simp only [id] <;> rw [IH]

theorem filterMap_none_eq_nil (l : List Report)
    (h : ∀ r ∈ l, r.report_id = none) :
    (l.filterMap fun r => r.report_id) = [] := by
  induction l with
  | nil => rfl
  | cons r l IH =>
    rw [List.filterMap_cons, h r (List.mem_cons_self r l)]
    exact IH (fun x hx => h x (List.mem_cons_of_mem _ hx))

/-- C7: input_ids() fails with MissingIdError exactly when some input
report carries a report_id and some other input report does not;
otherwise it returns Ok with the distinct report_id values in first-seen
order — the empty sequence when no input report carries an ID (including
when there are no input reports at all). -/
theorem claim_C7_input_ids (c : Collection) :
    (ToReportIterator.input_ids c = .error .mk ↔
      ((∃ r ∈ (Collection.reports c).filter fun r => r.is_input,
          (r.report_id).isSome = true) ∧
        (∃ r ∈ (Collection.reports c).filter fun r => r.is_input,
          r.report_id = none))) ∧
    (¬ ((∃ r ∈ (Collection.reports c).filter fun r => r.is_input,
          (r.report_id).isSome = true) ∧
        (∃ r ∈ (Collection.reports c).filter fun r => r.is_input,
          r.report_id = none)) →
      ToReportIterator.input_ids c = .ok
        (distinct_first_seen
          (((Collection.reports c).filter fun r => r.is_input).filterMap
            fun r => r.report_id))) := by
  unfold ToReportIterator.input_ids
  dsimp only
  set inputs := (Collection.reports c).filter fun r => r.is_input with hinputs
  set opts := inputs.map fun r => r.report_id with hopts
  set folded := opts.foldl fold_unique [] with hfolded
  have hmem : ∀ x, x ∈ folded ↔ x ∈ opts := by
    intro x
    rw [hfolded, mem_foldl_fold_unique]
    simp
  by_cases hsome : ∀ x ∈ opts, x.isSome = true
  · -- every input report has an id (or there are none at all)
    have hdecomp : opts = (opts.filterMap id).map some :=
      all_some_decomp opts hsome
    have hfold2 : folded = ((opts.filterMap id).foldl fold_unique []).map some := by
      rw [hfolded]
      conv_lhs => rw [hdecomp]
      rw [show ([] : List (Option Nat)) = ([] : List Nat).map some from rfl]
      rw [foldl_fold_unique_map_some]
    have hnomix : ¬ ((∃ r ∈ inputs, (r.report_id).isSome = true) ∧
        (∃ r ∈ inputs, r.report_id = none)) := by
      rintro ⟨-, r0, hr0, hr0n⟩
      have : r0.report_id ∈ opts := by
        rw [hopts]
        exact List.mem_map_of_mem _ hr0
      have := hsome _ this
      rw [hr0n] at this
      simp at this
    have hc1 : ¬ (folded.length = 1 ∧ folded.getD 0 none = none) := by
      rintro ⟨h1, h2⟩
      rw [hfold2] at h1 h2
      rcases hv : (opts.filterMap id).foldl fold_unique [] with _ | ⟨v, rest⟩
      · rw [hv] at h1
        simp at h1
      · rw [hv] at h1 h2
        simp at h1
        rw [h1] at h2
        simp at h2
    have hc2 : folded.all (fun o => o.isSome) = true := by
      rw [List.all_eq_true]
      intro x hx
      exact hsome x ((hmem x).mp hx)
    rw [if_neg hc1, if_pos hc2]
    constructor
    · constructor
      · intro h
        cases h
      · intro h
        exact absurd h hnomix
    · intro _
      congr 1
      rw [hfold2, filterMap_id_map_some]
      rw [distinct_first_seen, hopts, filterMap_id_map_report]
  · -- some input report has no id
    push_neg at hsome
    obtain ⟨x0, hx0, hx0n⟩ := hsome
    have hx0none : x0 = none := by
      cases x0
      · rfl
      · simp at hx0n
    subst hx0none
    obtain ⟨r0, hr0, hr0n⟩ := List.mem_map.mp hx0
    by_cases hnone : ∀ x ∈ opts, x = none
    · -- every input report lacks an id (and there is at least one)
      have hfoldnone : folded = [none] := by
        rw [hfolded]
        rcases ho : opts with _ | ⟨a, rest⟩
        · rw [ho] at hx0
          simp at hx0
        · have ha : a = none := hnone a (by rw [ho]; exact List.mem_cons_self a rest)
          subst ha
          rw [List.foldl_cons]
          rw [show fold_unique ([] : List (Option Nat)) none = [none] from rfl]
          exact foldl_fold_unique_all_none rest
            (fun x hx => hnone x (by rw [ho]; exact List.mem_cons_of_mem _ hx))
      have hc1 : folded.length = 1 ∧ folded.getD 0 none = none := by
        rw [hfoldnone]
        exact ⟨rfl, rfl⟩
      rw [if_pos hc1]
      have hnomix : ¬ ((∃ r ∈ inputs, (r.report_id).isSome = true) ∧
          (∃ r ∈ inputs, r.report_id = none)) := by
        rintro ⟨⟨r1, hr1, hr1s⟩, -⟩
        have : r1.report_id ∈ opts := by
          rw [hopts]
          exact List.mem_map_of_mem _ hr1
        have := hnone _ this
        rw [this] at hr1s
        simp at hr1s
      constructor
      · constructor
        · intro h
          cases h
        · intro h
          exact absurd h hnomix
      · intro _
        congr 1
        rw [distinct_first_seen, filterMap_none_eq_nil]
        · rfl
        · intro r hr
          have : r.report_id ∈ opts := by
            rw [hopts]
            exact List.mem_map_of_mem _ hr
          exact hnone _ this
    · -- mixed: some id present, some absent
      push_neg at hnone
      obtain ⟨x1, hx1, hx1n⟩ := hnone
      obtain ⟨r1, hr1, hr1e⟩ := List.mem_map.mp hx1
      have hmix : (∃ r ∈ inputs, (r.report_id).isSome = true) ∧
          (∃ r ∈ inputs, r.report_id = none) := by
        constructor
        · refine ⟨r1, hr1, ?_⟩
          rw [hr1e]
          cases x1
          · exact absurd rfl hx1n
          · rfl
        · exact ⟨r0, hr0, hr0n⟩
      have hc1 : ¬ (folded.length = 1 ∧ folded.getD 0 none = none) := by
        rintro ⟨h1, h2⟩
        have hnm : (none : Option Nat) ∈ folded := (hmem none).mpr hx0
        have hxm : x1 ∈ folded := (hmem x1).mpr hx1
        rcases hv : folded with _ | ⟨z, rest⟩
        · rw [hv] at hnm
          simp at hnm
        · rw [hv] at h1 hnm hxm
          simp at h1
          rw [h1] at hnm hxm
          simp at hnm hxm
          exact hx1n (hxm.trans hnm.symm)
      have hc2 : ¬ (folded.all (fun o => o.isSome) = true) := by
        rw [List.all_eq_true]
        intro hall
        have hnm : (none : Option Nat) ∈ folded := (hmem none).mpr hx0
        have := hall _ hnm
        simp at this
      rw [if_neg hc1, if_neg (by simpa using hc2)]
      constructor
      · constructor
        · intro _
          exact hmix
        · intro _
          rfl
      · intro h
        exact absurd hmix h

/-- Witness for C7: on a collection where exactly one of two input
reports carries an ID, the mixed condition holds and input_ids fails
with MissingIdError. -/
theorem claim_C7_witness :
    ((∃ r ∈ (Collection.reports sampleCollection).filter fun r => r.is_input,
        (r.report_id).isSome = true) ∧
      (∃ r ∈ (Collection.reports sampleCollection).filter fun r => r.is_input,
        r.report_id = none)) ∧
    ToReportIterator.input_ids sampleCollection = .error .mk :=
  ⟨⟨by decide, by decide⟩,
   (claim_C7_input_ids sampleCollection).1.mpr ⟨by decide, by decide⟩⟩
